import Mathlib

/-!
# Agent wallboard API: the controller operations and the status state machine

A shallow embedding of `src/controllers/agentController.js`.

* The process-wide `agents` Map becomes an explicit `Store` that every
  operation takes and returns together with the response it sends.
* `new Date()` becomes an explicit `now : Nat`.
* `utils/constants` (`AGENT_STATUS`, `VALID_STATUS_TRANSITIONS`,
  `API_MESSAGES`), `utils/apiResponse` (`sendSuccess`, `sendError`) and
  `models/Agent` are required by the controller but are not among the
  sources.  The constants are parameters (`Constants`); the response envelope
  and the Agent record are modelled from the specification and marked so.
* Request fields are taken at the types the data model gives them: strings,
  a list of strings for `skills`, and `Option` for a field a request may omit.
* The read `VALID_STATUS_TRANSITIONS[key]` is a function of the key that yields
  `undefined`, an array of statuses, or a value on which `includes` cannot be
  called (`TableRead`).
* The percentage `Math.round((count / totalAgents) * 100)` is computed in
  doubles; division and multiplication are modelled as correctly rounded to 53
  significant bits (`Double.round`), on natural-number mantissas.
* The plain objects `statusCounts` and `statusPercentages` are the lists of their
  own properties in the order `Object.entries` gives (`objSet`): array-index keys
  first, and no property for the key `__proto__`.
-/

namespace AgentWallboard

/-! ## JavaScript keyed collections -/

/-- The read `Map.prototype.get` (or an own-property read): the value stored under
`key`, if any. -/
def jsGet {α : Type} : List (String × α) → String → Option α
  | [], _ => none
  | (k, v) :: rest, key => if k = key then some v else jsGet rest key

/-- The write `Map.prototype.set` (or a property write): an existing key keeps its position and
gets the new value, a new key is appended (insertion order). -/
def jsSet {α : Type} : List (String × α) → String → α → List (String × α)
  | [], key, v => [(key, v)]
  | (k, w) :: rest, key, v =>
    if k = key then (k, v) :: rest else (k, w) :: jsSet rest key v

/-- The method `Map.prototype.delete`: drops the entry stored under `key`. -/
def jsDelete {α : Type} (m : List (String × α)) (key : String) : List (String × α) :=
  m.filter (fun e => decide (e.1 ≠ key))

/-- The call `join(', ')` of `Array.prototype.join` on an array of strings. -/
def joinComma (xs : List String) : String :=
  String.intercalate ", " xs

/-! ## The Agent record -/

/-- One entry of `statusHistory`. -/
structure StatusChange where
  status : String
  reason : Option String
  timestamp : Nat
deriving DecidableEq

/-- Modelled from the spec: the Agent record of `models/Agent` (section 3 of the
specification lists its fields); the class itself is not among the sources. -/
structure Agent where
  id : String
  agentCode : String
  name : String
  email : String
  department : String
  skills : List String
  status : String
  statusReason : Option String
  statusHistory : List StatusChange
  createdAt : Nat
  updatedAt : Nat
deriving DecidableEq

/-- Modelled from the spec: `Agent.prototype.updateStatus` (the specification's
`applyStatusTransition`), missing from the sources: "unconditionally sets
`status = newStatus`, sets `statusReason = reason`, appends a history entry with
the current timestamp, and refreshes `updatedAt`". -/
def Agent.updateStatus (agent : Agent) (newStatus : String) (reason : Option String)
    (now : Nat) : Agent :=
  { agent with
    status := newStatus
    statusReason := reason
    statusHistory := agent.statusHistory ++ [{ status := newStatus, reason := reason, timestamp := now }]
    updatedAt := now }

/-- The body of a create request. -/
structure AgentData where
  agentCode : String
  name : String
  email : String
  department : String
  skills : List String
  status : Option String
deriving DecidableEq

/-- The `agents` Map of `models/Agent`: agent id to Agent record, in insertion order. -/
abbrev Store := List (String × Agent)

/-- The array `Array.from(agents.values())`: the agents in insertion order. -/
def Store.values (agents : Store) : List Agent :=
  agents.map Prod.snd

/-! ## Constants of `utils/constants` -/

/-- The members of `API_MESSAGES` the controller reads. -/
structure ApiMessages where
  AGENT_NOT_FOUND : String
  INTERNAL_ERROR : String
  AGENT_CREATED : String
  AGENT_UPDATED : String
  AGENT_STATUS_UPDATED : String
  AGENT_DELETED : String

/-- What the read `VALID_STATUS_TRANSITIONS[key]` can yield. -/
inductive TableRead where
  /-- The value is `undefined`: `|| []` puts the empty array in its place. -/
  | absent
  /-- The value is an array of statuses. -/
  | entry (next : List String)
  /-- The value is truthy but has no `includes` method (a member an object
  literal inherits from `Object.prototype`, such as `constructor`): calling
  `validTransitions.includes` throws a TypeError. -/
  | noIncludes
deriving DecidableEq

/-- The expression `VALID_STATUS_TRANSITIONS[key] || []`, for a value that is
`undefined` or an array. -/
def TableRead.orEmpty : TableRead → List String
  | TableRead.entry next => next
  | _ => []

/-- The constants of `utils/constants`, which is not among the sources. -/
structure Constants where
  /-- The array `Object.values(AGENT_STATUS)`: the Status Registry. -/
  AGENT_STATUS : List String
  /-- The read `VALID_STATUS_TRANSITIONS[key]`: the Transition Table. -/
  VALID_STATUS_TRANSITIONS : String → TableRead
  API_MESSAGES : ApiMessages
  /-- The status the Agent constructor gives an agent whose create request
  carries none. -/
  initialStatus : String

/-- Modelled from the spec: the Agent constructor of `models/Agent`, missing from
the sources.  The identifier is "assigned at creation" (`newId`), the profile
fields are those of the request, the history starts empty, and both timestamps
are the time of construction.  The status is the request's when it carries one
("`status?`") and the default otherwise; it is "always a member of the Status
Registry", and "any value not in the set is rejected by every consumer (creation
default, transition target, ...)": for a status outside the registry the
constructor builds no agent (`none`), it throws. -/
def Agent.construct (K : Constants) (data : AgentData) (newId : String) (now : Nat) :
    Option Agent :=
  if data.status.getD K.initialStatus ∈ K.AGENT_STATUS then
    some
      { id := newId
        agentCode := data.agentCode
        name := data.name
        email := data.email
        department := data.department
        skills := data.skills
        status := data.status.getD K.initialStatus
        statusReason := none
        statusHistory := []
        createdAt := now
        updatedAt := now }
  else none

/-! ## The response envelope of `utils/apiResponse` -/

/-- The summary object `getStatusSummary` builds. -/
structure StatusSummary where
  totalAgents : Nat
  statusCounts : List (String × Nat)
  statusPercentages : List (String × Nat)
  lastUpdated : Nat
deriving DecidableEq

/-- The `data` member of a response. -/
inductive Payload where
  | none
  | agent (a : Agent)
  | agents (l : List Agent)
  | summary (s : StatusSummary)
deriving DecidableEq

/-- Modelled from the spec: the uniform `{success, message, data}` envelope and the
HTTP status code it is sent with. -/
structure Response where
  success : Bool
  statusCode : Nat
  message : String
  data : Payload
deriving DecidableEq

/-- Modelled from the spec: `sendSuccess(res, message, data, statusCode)` of
`utils/apiResponse`, missing from the sources. -/
def sendSuccess (message : String) (data : Payload) (statusCode : Nat) : Response :=
  { success := true, statusCode := statusCode, message := message, data := data }

/-- Modelled from the spec: `sendError(res, message, statusCode)` of
`utils/apiResponse`, missing from the sources. -/
def sendError (message : String) (statusCode : Nat) : Response :=
  { success := false, statusCode := statusCode, message := message, data := Payload.none }

/-! ## `PATCH /api/agents/:id/status` -/

/-- The message of the invalid-status error (line 93). -/
def invalidStatusMessage (K : Constants) : String :=
  "Invalid status. Valid: " ++ joinComma K.AGENT_STATUS

/-- The message of the illegal-transition error (line 103). -/
def illegalTransitionMessage (current requested : String) (validTransitions : List String) :
    String :=
  "Cannot change from " ++ current ++ " to " ++ requested ++ ". Valid: " ++
    joinComma validTransitions

/-- The controller operation `updateAgentStatus` (lines 80-117).  `status` and
`reason` are the members of the request body; `status` is `none` when the body
has none, and `Object.values(AGENT_STATUS).includes(undefined)` is false. -/
def updateAgentStatus (K : Constants) (agents : Store) (id : String)
    (status reason : Option String) (now : Nat) : Store × Response :=
  match jsGet agents id with
  | none => (agents, sendError K.API_MESSAGES.AGENT_NOT_FOUND 404)
  | some agent =>
    match status with
    | none => (agents, sendError (invalidStatusMessage K) 400)
    | some s =>
      if s ∉ K.AGENT_STATUS then (agents, sendError (invalidStatusMessage K) 400)
      else
        match K.VALID_STATUS_TRANSITIONS agent.status with
        | TableRead.noIncludes =>
          -- the TypeError of `validTransitions.includes` lands in the catch branch
          (agents, sendError K.API_MESSAGES.INTERNAL_ERROR 500)
        | read =>
          let validTransitions := read.orEmpty
          if s ∉ validTransitions then
            (agents, sendError (illegalTransitionMessage agent.status s validTransitions) 400)
          else
            let updated := agent.updateStatus s reason now
            (jsSet agents id updated,
              sendSuccess K.API_MESSAGES.AGENT_STATUS_UPDATED (Payload.agent updated) 200)

/-! ## `PUT /api/agents/:id` -/

/-- The body of an update request; a member the body does not carry is `none`. -/
structure UpdateBody where
  name : Option String
  email : Option String
  department : Option String
  skills : Option (List String)
deriving DecidableEq

/-- JavaScript truthiness of a string member of a request body: a missing member
(`undefined`) and the empty string are falsy. -/
def truthyString : Option String → Bool
  | none => false
  | some v => decide (v ≠ "")

/-- JavaScript truthiness of an array member of a request body: a missing member
is falsy, every array is truthy, the empty array too. -/
def truthyArray : Option (List String) → Bool
  | none => false
  | some _ => true

/-- The statement `if (value) agent.field = value` for a string field. -/
def assignString (value : Option String) (current : String) : String :=
  match value with
  | none => current
  | some v => if truthyString (some v) then v else current

/-- The statement `if (skills) agent.skills = skills`. -/
def assignArray (value : Option (List String)) (current : List String) : List String :=
  match value with
  | none => current
  | some v => if truthyArray (some v) then v else current

/-- The controller operation `updateAgent` (lines 59-77). -/
def updateAgent (K : Constants) (agents : Store) (id : String) (body : UpdateBody)
    (now : Nat) : Store × Response :=
  match jsGet agents id with
  | none => (agents, sendError K.API_MESSAGES.AGENT_NOT_FOUND 404)
  | some agent =>
    let updated : Agent :=
      { agent with
        name := assignString body.name agent.name
        email := assignString body.email agent.email
        department := assignString body.department agent.department
        skills := assignArray body.skills agent.skills
        updatedAt := now }
    (jsSet agents id updated,
      sendSuccess K.API_MESSAGES.AGENT_UPDATED (Payload.agent updated) 200)

/-! ## `POST /api/agents` -/

/-- The message of the duplicate-code error (line 42). -/
def duplicateCodeMessage (agentCode : String) : String :=
  "Agent code " ++ agentCode ++ " already exists"

/-- The controller operation `createAgent` (lines 35-56).  `newId` is the
identifier the Agent constructor assigns; when the constructor throws, the catch
branch of lines 52-55 answers 500 and the Map has not been written. -/
def createAgent (K : Constants) (agents : Store) (agentData : AgentData) (newId : String)
    (now : Nat) : Store × Response :=
  match (Store.values agents).find? (fun agent => decide (agent.agentCode = agentData.agentCode)) with
  | some _ => (agents, sendError (duplicateCodeMessage agentData.agentCode) 409)
  | none =>
    match Agent.construct K agentData newId now with
    | none => (agents, sendError K.API_MESSAGES.INTERNAL_ERROR 500)
    | some newAgent =>
      (jsSet agents newAgent.id newAgent,
        sendSuccess K.API_MESSAGES.AGENT_CREATED (Payload.agent newAgent) 201)

/-! ## `DELETE /api/agents/:id` -/

/-- The controller operation `deleteAgent` (lines 120-131). -/
def deleteAgent (K : Constants) (agents : Store) (id : String) : Store × Response :=
  match jsGet agents id with
  | none => (agents, sendError K.API_MESSAGES.AGENT_NOT_FOUND 404)
  | some _ => (jsDelete agents id, sendSuccess K.API_MESSAGES.AGENT_DELETED Payload.none 200)

/-! ## Requests and reachable stores -/

/-- A request that can change the store, with what the environment adds to it:
the identifier a create request's agent is given. -/
inductive Request where
  | create (agentData : AgentData) (newId : String)
  | update (id : String) (body : UpdateBody)
  | updateStatus (id : String) (status reason : Option String)
  | delete (id : String)

/-- The store and the response after the controller has served `req` at time `now`. -/
def serve (K : Constants) (agents : Store) (req : Request) (now : Nat) : Store × Response :=
  match req with
  | Request.create agentData newId => createAgent K agents agentData newId now
  | Request.update id body => updateAgent K agents id body now
  | Request.updateStatus id status reason => updateAgentStatus K agents id status reason now
  | Request.delete id => deleteAgent K agents id

/-- The stores the process can be in: it starts with the empty Map and serves one
request after the other. -/
inductive Reachable (K : Constants) : Store → Prop where
  | empty : Reachable K []
  | serve {agents : Store} (req : Request) (now : Nat) :
      Reachable K agents → Reachable K (serve K agents req now).1

/-- The store invariant: no key occurs twice, every agent is stored under its own
`id`, and no `agentCode` occurs twice. -/
def Store.Consistent (agents : Store) : Prop :=
  (agents.map Prod.fst).Nodup ∧ (∀ e ∈ agents, e.2.id = e.1) ∧
    (agents.map (fun e => e.2.agentCode)).Nodup

/-! ## `GET /api/agents/status/summary` -/

/-- A finite non-negative IEEE 754 double: the number `mant * 2 ^ exp`. -/
structure Double where
  mant : Nat
  exp : Int
deriving DecidableEq

/-- The quotient `n / d` rounded to the nearest natural number, a tie going to
the even neighbour (the rounding of IEEE 754 arithmetic). -/
def roundHalfEven (n d : Nat) : Nat :=
  let q := n / d
  let r := n % d
  if 2 * r < d then q
  else if d < 2 * r then q + 1
  else if q % 2 = 0 then q else q + 1

/-- Halving `n` until it is below 2, at most `fuel` times: the number of halvings. -/
def floorLog2Aux : Nat → Nat → Nat
  | 0, _ => 0
  | fuel + 1, n => if 2 ≤ n then floorLog2Aux fuel (n / 2) + 1 else 0

/-- The position of the leading bit of `n`: `2 ^ floorLog2 n ≤ n < 2 ^ (floorLog2 n + 1)`
for `n > 0`. -/
def floorLog2 (n : Nat) : Nat :=
  floorLog2Aux n n

/-- The number `n / d * 2 ^ e`, for `d > 0`, rounded to a double: to 53
significant bits, ties to even.  The exponent range of a double is not modelled;
the operands below are array lengths and the constant 100, far from it. -/
def Double.round (n d : Nat) (e : Int) : Double :=
  if n = 0 then { mant := 0, exp := 0 }
  else
    -- 2 ^ (l - 1) < n / d < 2 ^ (l + 1)
    let l : Int := (floorLog2 n : Int) - (floorLog2 d : Int)
    -- the exponent E with 2 ^ 52 ≤ n / d / 2 ^ E < 2 ^ 53
    let E : Int := if d * 2 ^ l.toNat ≤ n * 2 ^ (-l).toNat then l - 52 else l - 53
    { mant := roundHalfEven (n * 2 ^ (-E).toNat) (d * 2 ^ E.toNat), exp := E + e }

/-- The JavaScript division `count / total` of two array lengths. -/
def Double.div (count total : Nat) : Double :=
  Double.round count total 0

/-- The JavaScript product `x * k` of a double and a small integer constant. -/
def Double.mul (x : Double) (k : Nat) : Double :=
  Double.round (x.mant * k) 1 x.exp

/-- The function `Math.round` on a non-negative double: `floor (x + 1/2)`, computed exactly. -/
def mathRound (x : Double) : Nat :=
  (2 * x.mant * 2 ^ x.exp.toNat + 2 ^ (-x.exp).toNat) / (2 * 2 ^ (-x.exp).toNat)

/-- The expression `totalAgents > 0 ? Math.round((count / totalAgents) * 100) : 0`
(line 146). -/
def percentage (count totalAgents : Nat) : Nat :=
  if totalAgents > 0 then mathRound (Double.mul (Double.div count totalAgents) 100) else 0

/-- The number a string of decimal digits writes, continuing from `acc`; `none`
when a character is not a digit. -/
def decimalValue : List Char → Nat → Option Nat
  | [], acc => some acc
  | c :: cs, acc =>
    if '0' ≤ c ∧ c ≤ '9' then decimalValue cs (10 * acc + (c.toNat - 48)) else none

/-- The array index a property key is, if it is one: the key is the decimal
numeral, without a leading zero, of an integer below `2 ^ 32 - 1`. -/
def arrayIndex? (key : String) : Option Nat :=
  match key.data with
  | [] => none
  | ['0'] => some 0
  | '0' :: _ => none
  | cs =>
    match decimalValue cs 0 with
    | some n => if n < 2 ^ 32 - 1 then some n else none
    | none => none

/-- A new array-index property put at its place among the own properties of an
object: after the array indices below it, before the larger ones and before the
string keys. -/
def objInsertIndex {α : Type} (n : Nat) (key : String) (v : α) :
    List (String × α) → List (String × α)
  | [] => [(key, v)]
  | (k, w) :: rest =>
    match arrayIndex? k with
    | some m =>
      if n < m then (key, v) :: (k, w) :: rest else (k, w) :: objInsertIndex n key v rest
    | none => (key, v) :: (k, w) :: rest

/-- The assignment `obj[key] = v` of a number to a property of a plain object
`{}`, on the own properties of the object in the order `Object.entries` and
`JSON.stringify` list them (array indices ascending, then the other keys as
first written).  The key `__proto__` is the setter of `Object.prototype`, which
ignores a number: no property is written.  An existing property keeps its place. -/
def objSet {α : Type} (obj : List (String × α)) (key : String) (v : α) : List (String × α) :=
  if key = "__proto__" then obj
  else
    match jsGet obj key with
    | some _ => jsSet obj key v
    | none =>
      match arrayIndex? key with
      | some n => objInsertIndex n key v obj
      | none => obj ++ [(key, v)]

/-- The object `statusCounts` after the loop of lines 140-142: its own properties,
as `Object.entries` lists them. -/
def statusCounts (K : Constants) (agentList : List Agent) : List (String × Nat) :=
  K.AGENT_STATUS.foldl
    (fun counts s => objSet counts s (agentList.filter (fun a => decide (a.status = s))).length) []

/-- The object `statusPercentages` after the loop of lines 145-147 over
`Object.entries(statusCounts)`: its own properties, as `Object.entries` lists
them. -/
def statusPercentages (counts : List (String × Nat)) (totalAgents : Nat) : List (String × Nat) :=
  counts.foldl (fun percentages e => objSet percentages e.1 (percentage e.2 totalAgents)) []

/-- The controller operation `getStatusSummary` (lines 134-161); it leaves the
store as it is. -/
def getStatusSummary (K : Constants) (agents : Store) (now : Nat) : Response :=
  let agentList := Store.values agents
  let totalAgents := agentList.length
  let counts := statusCounts K agentList
  let summary : StatusSummary :=
    { totalAgents := totalAgents
      statusCounts := counts
      statusPercentages := statusPercentages counts totalAgents
      lastUpdated := now }
  sendSuccess "Status summary retrieved successfully" (Payload.summary summary) 200

/-! ## `GET /api/agents/:id` and `GET /api/agents` -/

/-- The controller operation `getAgentById` (lines 8-18); it leaves the store as
it is.  The snapshot `agent.toJSON()` is taken to carry every field of the
record. -/
def getAgentById (K : Constants) (agents : Store) (id : String) : Response :=
  match jsGet agents id with
  | none => sendError K.API_MESSAGES.AGENT_NOT_FOUND 404
  | some agent => sendSuccess "Agent retrieved successfully" (Payload.agent agent) 200

/-- The members of `req.query` that `getAllAgents` reads; a member the query
string does not carry is `none`. -/
structure ListQuery where
  status : Option String
  department : Option String
deriving DecidableEq

/-- The statement `if (value) agentList = agentList.filter(a => a.field === value)`
of lines 25 and 26. -/
def narrow (value : Option String) (field : Agent → String) (agentList : List Agent) :
    List Agent :=
  match value with
  | none => agentList
  | some v =>
    if truthyString (some v) then agentList.filter (fun a => decide (field a = v))
    else agentList

/-- The controller operation `getAllAgents` (lines 21-32); it leaves the store as
it is. -/
def getAllAgents (agents : Store) (query : ListQuery) : Response :=
  let agentList := Store.values agents
  let agentList := narrow query.status Agent.status agentList
  let agentList := narrow query.department Agent.department agentList
  sendSuccess "Agents retrieved successfully" (Payload.agents agentList) 200

/-! ## Unexpected faults -/

/-- A thrown value as the error handling sees it: its `message` member, `none`
when it has none. -/
structure JsError where
  message : Option String
deriving DecidableEq

/-- The catch branch every controller operation ends with (lines 14-17, 28-31,
52-55, 73-76, 113-116, 127-130, 157-160): the error is logged and the caller gets
`API_MESSAGES.INTERNAL_ERROR` with status 500. -/
def catchBranch (K : Constants) (_error : JsError) : Response :=
  sendError K.API_MESSAGES.INTERNAL_ERROR 500

/-- The middleware `globalErrorHandler` of `src/middleware/errorHandler.js`
(lines 3-9): status 500 and the body
`{ success: false, message: err.message || "Internal Server Error" }`. -/
def globalErrorHandler (err : JsError) : Response :=
  { success := false
    statusCode := 500
    message :=
      match err.message with
      | none => "Internal Server Error"
      | some m => if truthyString (some m) then m else "Internal Server Error"
    data := Payload.none }

/-! ## The Transition Table as an object -/

/-- The names every object literal inherits from `Object.prototype`; each is a
function, or for `__proto__` the prototype object itself: truthy, and without an
`includes` method. -/
def objectPrototypeMembers : List String :=
  ["constructor", "hasOwnProperty", "isPrototypeOf", "propertyIsEnumerable",
    "toLocaleString", "toString", "valueOf", "__proto__", "__defineGetter__",
    "__defineSetter__", "__lookupGetter__", "__lookupSetter__"]

/-- The read `table[key]` on an object literal whose own properties are `entries`
(status to array of statuses): the own property when there is one, else the
member inherited from `Object.prototype` when `key` names one, else `undefined`.
The table `VALID_STATUS_TRANSITIONS` is declared in `utils/constants`, which is
not among the sources; the specification describes it as a string-keyed table,
and its properties are the parameter `entries`. -/
def objectLiteralRead (entries : List (String × List String)) (key : String) : TableRead :=
  match jsGet entries key with
  | some next => TableRead.entry next
  | none => if key ∈ objectPrototypeMembers then TableRead.noIncludes else TableRead.absent

/-- Modelled from the spec: the Transition Table of `utils/constants`, which is not
among the sources: "a mapping from each status to the set of statuses reachable
directly from it", "total over the Status Registry (every status has an entry,
possibly empty)".  The sets themselves, which the specification does not list,
are the parameter `reachable`. -/
def specTransitionTable (registry : List String) (reachable : String → List String) :
    List (String × List String) :=
  registry.map (fun s => (s, reachable s))

/-! ## Sample constants and stores

The values of `utils/constants` are not among the sources; the statements below
hold for every `Constants`.  The samples here are the values the specification's
examples use, for evaluating the operations on concrete requests. -/

/-- Sample constants: the registry of the specification's data model and the one
table entry its example states, `available → [busy, offline, away]`. -/
def sampleConstants : Constants :=
  { AGENT_STATUS := ["available", "busy", "away", "offline", "on_break", "in_meeting"]
    VALID_STATUS_TRANSITIONS := fun key =>
      if key = "available" then TableRead.entry ["busy", "offline", "away"]
      else TableRead.absent
    API_MESSAGES :=
      { AGENT_NOT_FOUND := "Agent not found"
        INTERNAL_ERROR := "Internal server error"
        AGENT_CREATED := "Agent created successfully"
        AGENT_UPDATED := "Agent updated successfully"
        AGENT_STATUS_UPDATED := "Agent status updated successfully"
        AGENT_DELETED := "Agent deleted successfully" }
    initialStatus := "available" }

/-- A sample create request with the given code and status. -/
def sampleData (agentCode : String) (status : Option String) : AgentData :=
  { agentCode := agentCode
    name := "Ann"
    email := "ann@example.com"
    department := "Sales"
    skills := ["voice"]
    status := status }

/-- A sample agent with the given identifier, code and status, created at time 0. -/
def sampleAgent (id agentCode status : String) : Agent :=
  { id := id
    agentCode := agentCode
    name := "Ann"
    email := "ann@example.com"
    department := "Sales"
    skills := ["voice"]
    status := status
    statusReason := none
    statusHistory := []
    createdAt := 0
    updatedAt := 0 }

/-- A sample store: one agent `a1` whose status is `available`. -/
def sampleStore : Store :=
  [("a1", sampleAgent "a1" "A001" "available")]

/-- The store of the specification's summary example: four agents with the statuses
available, available, busy, offline. -/
def sampleStore4 : Store :=
  [("a1", sampleAgent "a1" "A001" "available"), ("a2", sampleAgent "a2" "A002" "available"),
    ("a3", sampleAgent "a3" "A003" "busy"), ("a4", sampleAgent "a4" "A004" "offline")]

/-- Sample constants whose Transition Table is the object literal
`{ available: ['busy', 'offline', 'away'] }`. -/
def sampleLiteralConstants : Constants :=
  { sampleConstants with
    VALID_STATUS_TRANSITIONS := objectLiteralRead [("available", ["busy", "offline", "away"])] }

/-- Sample constants whose Transition Table is the specification's: an entry for
every registry status, the one the example states for `available` and the empty
one for the others. -/
def sampleSpecConstants : Constants :=
  { sampleConstants with
    VALID_STATUS_TRANSITIONS :=
      objectLiteralRead (specTransitionTable sampleConstants.AGENT_STATUS
        (fun s => if s = "available" then ["busy", "offline", "away"] else [])) }

/-- A sample store of two agents: `a1` is `available` in Sales, `a2` is `busy` in
Support. -/
def sampleStore2 : Store :=
  [("a1", sampleAgent "a1" "A001" "available"),
    ("a2", { sampleAgent "a2" "A002" "busy" with department := "Support" })]

/-- Sample constants whose Status Registry holds the value `__proto__`. -/
def protoConstants : Constants :=
  { sampleConstants with AGENT_STATUS := ["__proto__", "available"] }

/-- A sample store of two agents: the status of `a1` is `__proto__`, `a2` is
`available`. -/
def protoStore : Store :=
  [("a1", sampleAgent "a1" "A001" "__proto__"), ("a2", sampleAgent "a2" "A002" "available")]

/-- A store of forty agents: twenty-three are `busy`, seventeen `available`. -/
def sampleStore40 : Store :=
  [("a01", sampleAgent "a01" "A001" "busy"), ("a02", sampleAgent "a02" "A002" "busy"),
    ("a03", sampleAgent "a03" "A003" "busy"), ("a04", sampleAgent "a04" "A004" "busy"),
    ("a05", sampleAgent "a05" "A005" "busy"), ("a06", sampleAgent "a06" "A006" "busy"),
    ("a07", sampleAgent "a07" "A007" "busy"), ("a08", sampleAgent "a08" "A008" "busy"),
    ("a09", sampleAgent "a09" "A009" "busy"), ("a10", sampleAgent "a10" "A010" "busy"),
    ("a11", sampleAgent "a11" "A011" "busy"), ("a12", sampleAgent "a12" "A012" "busy"),
    ("a13", sampleAgent "a13" "A013" "busy"), ("a14", sampleAgent "a14" "A014" "busy"),
    ("a15", sampleAgent "a15" "A015" "busy"), ("a16", sampleAgent "a16" "A016" "busy"),
    ("a17", sampleAgent "a17" "A017" "busy"), ("a18", sampleAgent "a18" "A018" "busy"),
    ("a19", sampleAgent "a19" "A019" "busy"), ("a20", sampleAgent "a20" "A020" "busy"),
    ("a21", sampleAgent "a21" "A021" "busy"), ("a22", sampleAgent "a22" "A022" "busy"),
    ("a23", sampleAgent "a23" "A023" "busy"), ("a24", sampleAgent "a24" "A024" "available"),
    ("a25", sampleAgent "a25" "A025" "available"), ("a26", sampleAgent "a26" "A026" "available"),
    ("a27", sampleAgent "a27" "A027" "available"), ("a28", sampleAgent "a28" "A028" "available"),
    ("a29", sampleAgent "a29" "A029" "available"), ("a30", sampleAgent "a30" "A030" "available"),
    ("a31", sampleAgent "a31" "A031" "available"), ("a32", sampleAgent "a32" "A032" "available"),
    ("a33", sampleAgent "a33" "A033" "available"), ("a34", sampleAgent "a34" "A034" "available"),
    ("a35", sampleAgent "a35" "A035" "available"), ("a36", sampleAgent "a36" "A036" "available"),
    ("a37", sampleAgent "a37" "A037" "available"), ("a38", sampleAgent "a38" "A038" "available"),
    ("a39", sampleAgent "a39" "A039" "available"), ("a40", sampleAgent "a40" "A040" "available")]

/-! ## Lemmas on keyed collections -/

theorem jsGet_jsSet_self {α : Type} (m : List (String × α)) (key : String) (v : α) :
    jsGet (jsSet m key v) key = some v := by
  induction m with
  | nil => simp [jsSet, jsGet]
  | cons e rest ih =>
    obtain ⟨k, w⟩ := e
    by_cases hk : k = key
    · simp [jsSet, jsGet, hk]
    · simp [jsSet, jsGet, hk, ih]

theorem jsGet_jsSet_other {α : Type} (m : List (String × α)) (key other : String) (v : α)
    (h : other ≠ key) : jsGet (jsSet m key v) other = jsGet m other := by
  induction m with
  | nil =>
    have h2 : ¬ key = other := fun e => h e.symm
    simp [jsSet, jsGet, h2]
  | cons e rest ih =>
    obtain ⟨k, w⟩ := e
    by_cases hk : k = key
    · subst hk
      have h2 : ¬ k = other := fun e => h e.symm
      simp [jsSet, jsGet, h2]
    · by_cases ho : k = other
      · subst ho
        simp [jsSet, jsGet, hk]
      · simp [jsSet, jsGet, hk, ho, ih]

/-! ## The branches of `updateAgentStatus` -/

theorem updateAgentStatus_notFound (K : Constants) (agents : Store) (id : String)
    (status reason : Option String) (now : Nat) (hget : jsGet agents id = none) :
    updateAgentStatus K agents id status reason now =
      (agents, sendError K.API_MESSAGES.AGENT_NOT_FOUND 404) := by
  simp [updateAgentStatus, hget]

theorem updateAgentStatus_missing (K : Constants) (agents : Store) (id : String)
    (reason : Option String) (now : Nat) (agent : Agent) (hget : jsGet agents id = some agent) :
    updateAgentStatus K agents id none reason now =
      (agents, sendError (invalidStatusMessage K) 400) := by
  simp [updateAgentStatus, hget]

theorem updateAgentStatus_unknown (K : Constants) (agents : Store) (id s : String)
    (reason : Option String) (now : Nat) (agent : Agent) (hget : jsGet agents id = some agent)
    (hreg : s ∉ K.AGENT_STATUS) :
    updateAgentStatus K agents id (some s) reason now =
      (agents, sendError (invalidStatusMessage K) 400) := by
  simp [updateAgentStatus, hget, hreg]

theorem updateAgentStatus_noIncludes (K : Constants) (agents : Store) (id s : String)
    (reason : Option String) (now : Nat) (agent : Agent) (hget : jsGet agents id = some agent)
    (hreg : s ∈ K.AGENT_STATUS)
    (hread : K.VALID_STATUS_TRANSITIONS agent.status = TableRead.noIncludes) :
    updateAgentStatus K agents id (some s) reason now =
      (agents, sendError K.API_MESSAGES.INTERNAL_ERROR 500) := by
  simp [updateAgentStatus, hget, hreg, hread, TableRead.orEmpty]

theorem updateAgentStatus_absent (K : Constants) (agents : Store) (id s : String)
    (reason : Option String) (now : Nat) (agent : Agent) (hget : jsGet agents id = some agent)
    (hreg : s ∈ K.AGENT_STATUS)
    (hread : K.VALID_STATUS_TRANSITIONS agent.status = TableRead.absent) :
    updateAgentStatus K agents id (some s) reason now =
      (agents, sendError (illegalTransitionMessage agent.status s []) 400) := by
  simp [updateAgentStatus, hget, hreg, hread, TableRead.orEmpty]

theorem updateAgentStatus_illegal (K : Constants) (agents : Store) (id s : String)
    (reason : Option String) (now : Nat) (agent : Agent) (next : List String)
    (hget : jsGet agents id = some agent) (hreg : s ∈ K.AGENT_STATUS)
    (hread : K.VALID_STATUS_TRANSITIONS agent.status = TableRead.entry next)
    (hmem : s ∉ next) :
    updateAgentStatus K agents id (some s) reason now =
      (agents, sendError (illegalTransitionMessage agent.status s next) 400) := by
  simp [updateAgentStatus, hget, hreg, hread, hmem, TableRead.orEmpty]

theorem updateAgentStatus_legal (K : Constants) (agents : Store) (id s : String)
    (reason : Option String) (now : Nat) (agent : Agent) (next : List String)
    (hget : jsGet agents id = some agent) (hreg : s ∈ K.AGENT_STATUS)
    (hread : K.VALID_STATUS_TRANSITIONS agent.status = TableRead.entry next)
    (hmem : s ∈ next) :
    updateAgentStatus K agents id (some s) reason now =
      (jsSet agents id (agent.updateStatus s reason now),
        sendSuccess K.API_MESSAGES.AGENT_STATUS_UPDATED
          (Payload.agent (agent.updateStatus s reason now)) 200) := by
  simp [updateAgentStatus, hget, hreg, hread, hmem, TableRead.orEmpty]

/-- The outcome of `updateAgentStatus`, by cases: it is a success exactly in the
last one. -/
theorem updateAgentStatus_cases (K : Constants) (agents : Store) (id : String)
    (status reason : Option String) (now : Nat) :
    (updateAgentStatus K agents id status reason now).1 = agents ∧
        (updateAgentStatus K agents id status reason now).2.success = false ∧
        (updateAgentStatus K agents id status reason now).2.data = Payload.none ∧
        ((updateAgentStatus K agents id status reason now).2.statusCode = 404 ∨
          (updateAgentStatus K agents id status reason now).2.statusCode = 400 ∨
          (updateAgentStatus K agents id status reason now).2.statusCode = 500) ∧
        ¬ (∃ agent s next, jsGet agents id = some agent ∧ status = some s ∧
            s ∈ K.AGENT_STATUS ∧
            K.VALID_STATUS_TRANSITIONS agent.status = TableRead.entry next ∧ s ∈ next)
      ∨ ∃ agent s next, jsGet agents id = some agent ∧ status = some s ∧
          s ∈ K.AGENT_STATUS ∧
          K.VALID_STATUS_TRANSITIONS agent.status = TableRead.entry next ∧ s ∈ next ∧
          updateAgentStatus K agents id status reason now =
            (jsSet agents id (agent.updateStatus s reason now),
              sendSuccess K.API_MESSAGES.AGENT_STATUS_UPDATED
                (Payload.agent (agent.updateStatus s reason now)) 200) := by
  cases hget : jsGet agents id with
  | none =>
    left
    rw [updateAgentStatus_notFound K agents id status reason now hget]
    simp [sendError]
  | some agent =>
    cases status with
    | none =>
      left
      rw [updateAgentStatus_missing K agents id reason now agent hget]
      simp [sendError]
    | some s =>
      by_cases hreg : s ∈ K.AGENT_STATUS
      · cases hread : K.VALID_STATUS_TRANSITIONS agent.status with
        | absent =>
          left
          rw [updateAgentStatus_absent K agents id s reason now agent hget hreg hread]
          simp [sendError, hread]
        | noIncludes =>
          left
          rw [updateAgentStatus_noIncludes K agents id s reason now agent hget hreg hread]
          simp [sendError, hread]
        | entry next =>
          by_cases hmem : s ∈ next
          · right
            exact ⟨agent, s, next, rfl, rfl, hreg, hread, hmem,
              updateAgentStatus_legal K agents id s reason now agent next hget hreg hread hmem⟩
          · left
            rw [updateAgentStatus_illegal K agents id s reason now agent next hget hreg hread hmem]
            simp [sendError, hread, hmem]
      · left
        rw [updateAgentStatus_unknown K agents id s reason now agent hget hreg]
        simp [sendError, hreg]

/-! ## The Transition Enforcer -/

/-- C1: when `updateAgentStatus` answers with an error, the store it leaves is
exactly the store it was given, so every agent read from it, the addressed one
included, has the status, reason, history and `updatedAt` it had. -/
theorem updateAgentStatus_error_leaves_store (K : Constants) (agents : Store) (id : String)
    (status reason : Option String) (now : Nat)
    (h : (updateAgentStatus K agents id status reason now).2.success = false) :
    (updateAgentStatus K agents id status reason now).1 = agents ∧
      ∀ key, jsGet (updateAgentStatus K agents id status reason now).1 key = jsGet agents key := by
  have hstore : (updateAgentStatus K agents id status reason now).1 = agents := by
    rcases updateAgentStatus_cases K agents id status reason now with hc | hc
    · exact hc.1
    · obtain ⟨agent, s, next, _, _, _, _, _, heq⟩ := hc
      rw [heq] at h
      simp [sendSuccess] at h
  exact ⟨hstore, fun key => by rw [hstore]⟩

/-- C1, on the sample store: asking to move agent `a1` from `available` to
`in_meeting` is refused and leaves the store as it was. -/
theorem updateAgentStatus_error_leaves_store_witness :
    (updateAgentStatus sampleConstants sampleStore "a1" (some "in_meeting") none 7).2.success
        = false ∧
      ((updateAgentStatus sampleConstants sampleStore "a1" (some "in_meeting") none 7).1
          = sampleStore ∧
        ∀ key, jsGet (updateAgentStatus sampleConstants sampleStore "a1" (some "in_meeting")
          none 7).1 key = jsGet sampleStore key) :=
  ⟨by decide, updateAgentStatus_error_leaves_store sampleConstants sampleStore "a1"
    (some "in_meeting") none 7 (by decide)⟩

/-- C2: `updateAgentStatus` succeeds exactly when an agent with that id is in the
store, the requested status is in the Status Registry and the requested status is
in the Transition Table entry of the agent's current status; it then stores and
returns the agent with the transition applied, and in every other case it
returns an error and leaves the store. -/
theorem updateAgentStatus_succeeds_iff (K : Constants) (agents : Store) (id : String)
    (status reason : Option String) (now : Nat) :
    ((updateAgentStatus K agents id status reason now).2.success = true ↔
        ∃ agent s next, jsGet agents id = some agent ∧ status = some s ∧
          s ∈ K.AGENT_STATUS ∧
          K.VALID_STATUS_TRANSITIONS agent.status = TableRead.entry next ∧ s ∈ next) ∧
      (∀ agent s next, jsGet agents id = some agent → status = some s →
        s ∈ K.AGENT_STATUS →
        K.VALID_STATUS_TRANSITIONS agent.status = TableRead.entry next → s ∈ next →
        updateAgentStatus K agents id status reason now =
          (jsSet agents id (agent.updateStatus s reason now),
            { success := true, statusCode := 200,
              message := K.API_MESSAGES.AGENT_STATUS_UPDATED,
              data := Payload.agent (agent.updateStatus s reason now) })) ∧
      ((¬ ∃ agent s next, jsGet agents id = some agent ∧ status = some s ∧
          s ∈ K.AGENT_STATUS ∧
          K.VALID_STATUS_TRANSITIONS agent.status = TableRead.entry next ∧ s ∈ next) →
        (updateAgentStatus K agents id status reason now).2.success = false ∧
          (updateAgentStatus K agents id status reason now).2.data = Payload.none ∧
          ((updateAgentStatus K agents id status reason now).2.statusCode = 404 ∨
            (updateAgentStatus K agents id status reason now).2.statusCode = 400 ∨
            (updateAgentStatus K agents id status reason now).2.statusCode = 500)) := by
  refine ⟨?_, ?_, ?_⟩
  · constructor
    · intro h
      rcases updateAgentStatus_cases K agents id status reason now with hc | hc
      · rw [hc.2.1] at h
        exact absurd h (by decide)
      · obtain ⟨agent, s, next, h1, h2, h3, h4, h5, _⟩ := hc
        exact ⟨agent, s, next, h1, h2, h3, h4, h5⟩
    · rintro ⟨agent, s, next, h1, h2, h3, h4, h5⟩
      subst h2
      rw [updateAgentStatus_legal K agents id s reason now agent next h1 h3 h4 h5]
      rfl
  · intro agent s next h1 h2 h3 h4 h5
    subst h2
    rw [updateAgentStatus_legal K agents id s reason now agent next h1 h3 h4 h5]
    rfl
  · intro hno
    rcases updateAgentStatus_cases K agents id status reason now with hc | hc
    · exact ⟨hc.2.1, hc.2.2.1, hc.2.2.2.1⟩
    · obtain ⟨agent, s, next, h1, h2, h3, h4, h5, _⟩ := hc
      exact absurd ⟨agent, s, next, h1, h2, h3, h4, h5⟩ hno

/-- C2, on the sample store: moving agent `a1` from `available` to `busy`
succeeds, and moving it to `in_meeting` does not. -/
theorem updateAgentStatus_succeeds_iff_witness :
    (updateAgentStatus sampleConstants sampleStore "a1" (some "busy") none 7).2.success = true ∧
      (updateAgentStatus sampleConstants sampleStore "a1" (some "in_meeting") none 7).2.success
        = false :=
  ⟨(updateAgentStatus_succeeds_iff sampleConstants sampleStore "a1" (some "busy") none 7).1.mpr
      ⟨sampleAgent "a1" "A001" "available", "busy", ["busy", "offline", "away"],
        by decide, rfl, by decide, by decide, by decide⟩,
    by decide⟩

/-- C3: for an existing agent and a requested status that is in the Status
Registry but not in the Transition Table entry of the agent's current status,
`updateAgentStatus` leaves the store and answers 400 with the message that names
the current status, the requested status and the whole entry, in table order. -/
theorem updateAgentStatus_illegal_transition (K : Constants) (agents : Store) (id s : String)
    (reason : Option String) (now : Nat) (agent : Agent) (next : List String)
    (hget : jsGet agents id = some agent) (hreg : s ∈ K.AGENT_STATUS)
    (hread : K.VALID_STATUS_TRANSITIONS agent.status = TableRead.entry next)
    (hmem : s ∉ next) :
    updateAgentStatus K agents id (some s) reason now =
      (agents,
        { success := false, statusCode := 400,
          message := "Cannot change from " ++ agent.status ++ " to " ++ s ++ ". Valid: " ++
            String.intercalate ", " next,
          data := Payload.none }) := by
  rw [updateAgentStatus_illegal K agents id s reason now agent next hget hreg hread hmem]
  rfl

/-- C3, the specification's example: the agent is `available`, the table maps
`available` to `[busy, offline, away]`, and a request for `in_meeting` is
answered with an error that lists busy, offline, away. -/
theorem updateAgentStatus_illegal_transition_witness :
    updateAgentStatus sampleConstants sampleStore "a1" (some "in_meeting") none 7 =
      (sampleStore,
        { success := false, statusCode := 400,
          message := "Cannot change from available to in_meeting. Valid: busy, offline, away",
          data := Payload.none }) :=
  updateAgentStatus_illegal_transition sampleConstants sampleStore "a1" "in_meeting" none 7
    (sampleAgent "a1" "A001" "available") ["busy", "offline", "away"]
    (by decide) (by decide) (by decide) (by decide)

/-- C4: for an existing agent, whatever its status and whatever the Transition
Table holds, a request whose status is missing or is not in the Status Registry
is answered 400 with the invalid-status message, which lists every registry
value; that message is never an illegal-transition message. -/
theorem updateAgentStatus_invalid_status (K : Constants) (agents : Store) (id : String)
    (status reason : Option String) (now : Nat) (agent : Agent)
    (hget : jsGet agents id = some agent)
    (hbad : ∀ s, status = some s → s ∉ K.AGENT_STATUS) :
    updateAgentStatus K agents id status reason now =
        (agents,
          { success := false, statusCode := 400,
            message := "Invalid status. Valid: " ++ String.intercalate ", " K.AGENT_STATUS,
            data := Payload.none }) ∧
      ∀ current requested validTransitions,
        (updateAgentStatus K agents id status reason now).2.message ≠
          illegalTransitionMessage current requested validTransitions := by
  have heq : updateAgentStatus K agents id status reason now =
      (agents, sendError (invalidStatusMessage K) 400) := by
    cases status with
    | none => exact updateAgentStatus_missing K agents id reason now agent hget
    | some s => exact updateAgentStatus_unknown K agents id s reason now agent hget (hbad s rfl)
  refine ⟨by rw [heq]; rfl, ?_⟩
  intro current requested validTransitions h
  rw [heq] at h
  have h2 := congrArg (fun m => m.data.head?) h
  simp [sendError, invalidStatusMessage, illegalTransitionMessage, String.data_append] at h2

/-- C4, on the sample store: a request with no status and a request for the
unknown status `lunch` both get the invalid-status answer. -/
theorem updateAgentStatus_invalid_status_witness :
    updateAgentStatus sampleConstants sampleStore "a1" none none 7 =
        (sampleStore,
          { success := false, statusCode := 400,
            message :=
              "Invalid status. Valid: available, busy, away, offline, on_break, in_meeting",
            data := Payload.none }) ∧
      (updateAgentStatus sampleConstants sampleStore "a1" (some "lunch") none 7).2.statusCode
        = 400 :=
  ⟨(updateAgentStatus_invalid_status sampleConstants sampleStore "a1" none none 7
      (sampleAgent "a1" "A001" "available") (by decide) (by simp)).1,
    by decide⟩

/-- C5: after a successful `updateAgentStatus` the addressed agent's
`statusHistory` is its previous history with exactly one entry appended, that
entry's status is the requested status, and so is the agent's status. -/
theorem updateAgentStatus_appends_history (K : Constants) (agents : Store) (id : String)
    (status reason : Option String) (now : Nat) (agent : Agent)
    (hget : jsGet agents id = some agent)
    (hok : (updateAgentStatus K agents id status reason now).2.success = true) :
    ∃ s after last, status = some s ∧
      jsGet (updateAgentStatus K agents id status reason now).1 id = some after ∧
      (updateAgentStatus K agents id status reason now).2.data = Payload.agent after ∧
      after.statusHistory = agent.statusHistory ++ [last] ∧
      after.statusHistory.length = agent.statusHistory.length + 1 ∧
      last.status = s ∧ after.status = s := by
  rcases updateAgentStatus_cases K agents id status reason now with hc | hc
  · rw [hc.2.1] at hok
    exact absurd hok (by decide)
  · obtain ⟨agent2, s, next, h1, h2, _, _, _, heq⟩ := hc
    rw [hget] at h1
    cases h1
    refine ⟨s, agent.updateStatus s reason now,
      { status := s, reason := reason, timestamp := now }, h2, ?_, ?_, rfl, ?_, rfl, rfl⟩
    · rw [heq]
      exact jsGet_jsSet_self agents id _
    · rw [heq]
      rfl
    · simp [Agent.updateStatus]

/-- C5, on the sample store: after agent `a1` moves to `busy` its history is the
one entry for `busy` and its status is `busy`. -/
theorem updateAgentStatus_appends_history_witness :
    jsGet sampleStore "a1" = some (sampleAgent "a1" "A001" "available") ∧
      (updateAgentStatus sampleConstants sampleStore "a1" (some "busy") none 7).2.success
        = true ∧
      ∃ s after last, some "busy" = some s ∧
        jsGet (updateAgentStatus sampleConstants sampleStore "a1" (some "busy") none 7).1 "a1"
          = some after ∧
        (updateAgentStatus sampleConstants sampleStore "a1" (some "busy") none 7).2.data
          = Payload.agent after ∧
        after.statusHistory = (sampleAgent "a1" "A001" "available").statusHistory ++ [last] ∧
        after.statusHistory.length
          = (sampleAgent "a1" "A001" "available").statusHistory.length + 1 ∧
        last.status = s ∧ after.status = s :=
  ⟨by decide, by decide,
    updateAgentStatus_appends_history sampleConstants sampleStore "a1" (some "busy") none 7
      (sampleAgent "a1" "A001" "available") (by decide) (by decide)⟩

/-! ## The Agent Store -/

theorem mem_jsSet {α : Type} (m : List (String × α)) (key : String) (v : α)
    (e : String × α) (h : e ∈ jsSet m key v) : e ∈ m ∨ e = (key, v) := by
  induction m with
  | nil =>
    simp [jsSet] at h
    exact Or.inr h
  | cons x rest ih =>
    obtain ⟨k, w⟩ := x
    by_cases hk : k = key
    · simp [jsSet, hk] at h
      rcases h with h | h
      · exact Or.inr h
      · exact Or.inl (List.mem_cons_of_mem _ h)
    · simp [jsSet, hk] at h
      rcases h with h | h
      · exact Or.inl (by rw [h]; exact List.mem_cons_self _ _)
      · rcases ih h with h2 | h2
        · exact Or.inl (List.mem_cons_of_mem _ h2)
        · exact Or.inr h2

theorem jsSet_keys_nodup {α : Type} (m : List (String × α)) (key : String) (v : α)
    (h : (m.map Prod.fst).Nodup) : ((jsSet m key v).map Prod.fst).Nodup := by
  induction m with
  | nil => simp [jsSet]
  | cons x rest ih =>
    obtain ⟨k, w⟩ := x
    simp only [List.map_cons, List.nodup_cons] at h
    by_cases hk : k = key
    · simp only [jsSet, hk, if_true, List.map_cons, List.nodup_cons]
      exact ⟨hk ▸ h.1, h.2⟩
    · simp only [jsSet, hk, if_false, List.map_cons, List.nodup_cons]
      refine ⟨?_, ih h.2⟩
      intro hmem
      obtain ⟨e, he, hfst⟩ := List.mem_map.mp hmem
      rcases mem_jsSet rest key v e he with h2 | h2
      · exact h.1 (List.mem_map.mpr ⟨e, h2, hfst⟩)
      · rw [h2] at hfst
        exact hk hfst.symm

theorem jsSet_map_nodup_fresh {α β : Type} (f : α → β) (m : List (String × α)) (key : String)
    (v : α) (hfresh : f v ∉ m.map (fun e => f e.2)) (h : (m.map (fun e => f e.2)).Nodup) :
    ((jsSet m key v).map (fun e => f e.2)).Nodup := by
  induction m with
  | nil => simp [jsSet]
  | cons x rest ih =>
    obtain ⟨k, w⟩ := x
    simp only [List.map_cons, List.nodup_cons, List.mem_cons, not_or] at h hfresh
    by_cases hk : k = key
    · simp only [jsSet, hk, if_true, List.map_cons, List.nodup_cons]
      exact ⟨hfresh.2, h.2⟩
    · simp only [jsSet, hk, if_false, List.map_cons, List.nodup_cons]
      refine ⟨?_, ih hfresh.2 h.2⟩
      intro hmem
      obtain ⟨e, he, hfe⟩ := List.mem_map.mp hmem
      rcases mem_jsSet rest key v e he with h2 | h2
      · exact h.1 (List.mem_map.mpr ⟨e, h2, hfe⟩)
      · rw [h2] at hfe
        exact hfresh.1 hfe

theorem jsSet_map_same {α β : Type} (f : α → β) (m : List (String × α)) (key : String)
    (v w : α) (hget : jsGet m key = some w) (hf : f v = f w) :
    (jsSet m key v).map (fun e => f e.2) = m.map (fun e => f e.2) := by
  induction m with
  | nil => simp [jsGet] at hget
  | cons x rest ih =>
    obtain ⟨k, u⟩ := x
    by_cases hk : k = key
    · simp [jsGet, hk] at hget
      simp [jsSet, hk, hget, hf]
    · simp [jsGet, hk] at hget
      simp [jsSet, hk, ih hget]

theorem jsSet_keys_same {α : Type} (m : List (String × α)) (key : String)
    (v w : α) (hget : jsGet m key = some w) :
    (jsSet m key v).map Prod.fst = m.map Prod.fst := by
  induction m with
  | nil => simp [jsGet] at hget
  | cons x rest ih =>
    obtain ⟨k, u⟩ := x
    by_cases hk : k = key
    · simp [jsSet, hk]
    · simp [jsGet, hk] at hget
      simp [jsSet, hk, ih hget]

theorem jsGet_mem {α : Type} (m : List (String × α)) (key : String) (w : α)
    (hget : jsGet m key = some w) : (key, w) ∈ m := by
  induction m with
  | nil => simp [jsGet] at hget
  | cons x rest ih =>
    obtain ⟨k, u⟩ := x
    by_cases hk : k = key
    · simp [jsGet, hk] at hget
      simp [hk, hget]
    · simp [jsGet, hk] at hget
      exact List.mem_cons_of_mem _ (ih hget)

/-- Writing an agent that has the identifier and the code of the agent stored under
`id` keeps the store invariant. -/
theorem consistent_jsSet_same (agents : Store) (id : String) (agent updated : Agent)
    (hget : jsGet agents id = some agent) (hid : updated.id = agent.id)
    (hcode : updated.agentCode = agent.agentCode) (h : Store.Consistent agents) :
    Store.Consistent (jsSet agents id updated) := by
  obtain ⟨hkeys, hids, hcodes⟩ := h
  refine ⟨?_, ?_, ?_⟩
  · rw [jsSet_keys_same agents id updated agent hget]
    exact hkeys
  · intro e he
    rcases mem_jsSet agents id updated e he with h2 | h2
    · exact hids e h2
    · rw [h2]
      simpa [hid] using hids (id, agent) (jsGet_mem agents id agent hget)
  · rw [jsSet_map_same (fun a : Agent => a.agentCode) agents id updated agent hget hcode]
    exact hcodes

/-- What the Agent constructor builds, when it builds an agent. -/
theorem Agent.construct_some (K : Constants) (data : AgentData) (newId : String) (now : Nat)
    (agent : Agent) (h : Agent.construct K data newId now = some agent) :
    agent.id = newId ∧ agent.agentCode = data.agentCode ∧
      agent.status = data.status.getD K.initialStatus ∧ agent.status ∈ K.AGENT_STATUS := by
  unfold Agent.construct at h
  split at h
  · rename_i hreg
    cases h
    exact ⟨rfl, rfl, rfl, hreg⟩
  · cases h

theorem consistent_createAgent (K : Constants) (agents : Store) (agentData : AgentData)
    (newId : String) (now : Nat) (h : Store.Consistent agents) :
    Store.Consistent (createAgent K agents agentData newId now).1 := by
  unfold createAgent
  cases hfind : (Store.values agents).find?
      (fun agent => decide (agent.agentCode = agentData.agentCode)) with
  | some found => exact h
  | none =>
    obtain ⟨hkeys, hids, hcodes⟩ := h
    have hfresh : agentData.agentCode ∉ agents.map (fun e => e.2.agentCode) := by
      intro hmem
      obtain ⟨e, he, hcode⟩ := List.mem_map.mp hmem
      have hall := List.find?_eq_none.mp hfind e.2 (List.mem_map.mpr ⟨e, he, rfl⟩)
      simp [hcode] at hall
    cases hcons : Agent.construct K agentData newId now with
    | none => exact ⟨hkeys, hids, hcodes⟩
    | some newAgent =>
      have hcode : newAgent.agentCode = agentData.agentCode :=
        (Agent.construct_some K agentData newId now newAgent hcons).2.1
      refine ⟨?_, ?_, ?_⟩
      · exact jsSet_keys_nodup agents _ _ hkeys
      · intro e he
        rcases mem_jsSet agents _ _ e he with h2 | h2
        · exact hids e h2
        · rw [h2]
      · exact jsSet_map_nodup_fresh (fun a : Agent => a.agentCode) agents _ _
          (by show newAgent.agentCode ∉ _; rw [hcode]; exact hfresh) hcodes

theorem consistent_updateAgent (K : Constants) (agents : Store) (id : String)
    (body : UpdateBody) (now : Nat) (h : Store.Consistent agents) :
    Store.Consistent (updateAgent K agents id body now).1 := by
  unfold updateAgent
  cases hget : jsGet agents id with
  | none => exact h
  | some agent => exact consistent_jsSet_same agents id agent _ hget rfl rfl h

theorem consistent_updateAgentStatus (K : Constants) (agents : Store) (id : String)
    (status reason : Option String) (now : Nat) (h : Store.Consistent agents) :
    Store.Consistent (updateAgentStatus K agents id status reason now).1 := by
  rcases updateAgentStatus_cases K agents id status reason now with hc | hc
  · rw [hc.1]
    exact h
  · obtain ⟨agent, s, next, hget, _, _, _, _, heq⟩ := hc
    rw [heq]
    exact consistent_jsSet_same agents id agent _ hget rfl rfl h

theorem consistent_deleteAgent (K : Constants) (agents : Store) (id : String)
    (h : Store.Consistent agents) : Store.Consistent (deleteAgent K agents id).1 := by
  unfold deleteAgent
  cases hget : jsGet agents id with
  | none => exact h
  | some agent =>
    obtain ⟨hkeys, hids, hcodes⟩ := h
    have hsub : List.Sublist (jsDelete agents id) agents := List.filter_sublist agents
    exact ⟨hkeys.sublist (hsub.map _), fun e he => hids e (hsub.subset he),
      hcodes.sublist (hsub.map _)⟩

theorem consistent_of_reachable (K : Constants) (agents : Store) (h : Reachable K agents) :
    Store.Consistent agents := by
  induction h with
  | empty => exact ⟨List.nodup_nil, fun e he => absurd he (List.not_mem_nil e), List.nodup_nil⟩
  | serve req now _ ih =>
    cases req with
    | create agentData newId => exact consistent_createAgent K _ agentData newId now ih
    | update id body => exact consistent_updateAgent K _ id body now ih
    | updateStatus id status reason =>
      exact consistent_updateAgentStatus K _ id status reason now ih
    | delete id => exact consistent_deleteAgent K _ id ih

/-- C6: when the store already holds an agent with the request's `agentCode`,
`createAgent` answers 409 with the duplicate-code message and leaves the store,
so a store whose codes are pairwise distinct still holds exactly one agent with
that code. -/
theorem createAgent_duplicate_code (K : Constants) (agents : Store) (agentData : AgentData)
    (newId : String) (now : Nat)
    (hdup : ∃ a ∈ Store.values agents, a.agentCode = agentData.agentCode) :
    createAgent K agents agentData newId now =
        (agents,
          { success := false, statusCode := 409,
            message := "Agent code " ++ agentData.agentCode ++ " already exists",
            data := Payload.none }) ∧
      (((Store.values agents).map Agent.agentCode).Nodup →
        ((Store.values (createAgent K agents agentData newId now).1).map
          Agent.agentCode).count agentData.agentCode = 1) := by
  obtain ⟨a, ha, hcode⟩ := hdup
  have heq : createAgent K agents agentData newId now =
      (agents, sendError (duplicateCodeMessage agentData.agentCode) 409) := by
    unfold createAgent
    cases hfind : (Store.values agents).find?
        (fun agent => decide (agent.agentCode = agentData.agentCode)) with
    | some found => rfl
    | none =>
      have hall := List.find?_eq_none.mp hfind a ha
      simp [hcode] at hall
  refine ⟨by rw [heq]; rfl, ?_⟩
  intro hnodup
  rw [heq]
  have hmem : agentData.agentCode ∈ (Store.values agents).map Agent.agentCode :=
    List.mem_map.mpr ⟨a, ha, hcode⟩
  exact List.count_eq_one_of_mem hnodup hmem

/-- C6, the specification's example: from the empty store, a first create with code
`A001` is stored and a second create with the same code is answered 409; the store
still holds exactly one agent with that code. -/
theorem createAgent_duplicate_code_witness :
    (∃ a ∈ Store.values (createAgent sampleConstants [] (sampleData "A001" none) "a1" 0).1,
        a.agentCode = (sampleData "A001" (some "busy")).agentCode) ∧
      (createAgent sampleConstants
          (createAgent sampleConstants [] (sampleData "A001" none) "a1" 0).1
          (sampleData "A001" (some "busy")) "a2" 1 =
        ((createAgent sampleConstants [] (sampleData "A001" none) "a1" 0).1,
          { success := false, statusCode := 409,
            message := "Agent code " ++ (sampleData "A001" (some "busy")).agentCode ++
              " already exists",
            data := Payload.none }) ∧
      (((Store.values (createAgent sampleConstants [] (sampleData "A001" none) "a1" 0).1).map
          Agent.agentCode).Nodup →
        ((Store.values (createAgent sampleConstants
          (createAgent sampleConstants [] (sampleData "A001" none) "a1" 0).1
          (sampleData "A001" (some "busy")) "a2" 1).1).map
          Agent.agentCode).count (sampleData "A001" (some "busy")).agentCode = 1)) :=
  ⟨⟨sampleAgent "a1" "A001" "available", by decide, by decide⟩,
    createAgent_duplicate_code sampleConstants
      (createAgent sampleConstants [] (sampleData "A001" none) "a1" 0).1
      (sampleData "A001" (some "busy")) "a2" 1
      ⟨sampleAgent "a1" "A001" "available", by decide, by decide⟩⟩

/-- C7: in every store reachable from the empty store by create, update,
status-update and delete requests, no key occurs twice, every agent is stored
under its own `id` (so there is exactly one agent per id), and no two agents have
the same `agentCode`. -/
theorem reachable_unique_id_and_code (K : Constants) (agents : Store)
    (h : Reachable K agents) :
    (agents.map Prod.fst).Nodup ∧ (∀ e ∈ agents, e.2.id = e.1) ∧
      ((Store.values agents).map Agent.id).Nodup ∧
      ((Store.values agents).map Agent.agentCode).Nodup := by
  obtain ⟨hkeys, hids, hcodes⟩ := consistent_of_reachable K agents h
  refine ⟨hkeys, hids, ?_, ?_⟩
  · have hmap : (Store.values agents).map Agent.id = agents.map Prod.fst := by
      simp only [Store.values, List.map_map]
      exact List.map_congr_left (fun e he => hids e he)
    rw [hmap]
    exact hkeys
  · have hmap : (Store.values agents).map Agent.agentCode
        = agents.map (fun e => e.2.agentCode) := by
      simp only [Store.values, List.map_map]
      rfl
    rw [hmap]
    exact hcodes

/-- C7, on a store reached by two create requests with different codes. -/
theorem reachable_unique_id_and_code_witness :
    Reachable sampleConstants
        (serve sampleConstants
          (serve sampleConstants [] (Request.create (sampleData "A001" none) "a1") 0).1
          (Request.create (sampleData "A002" none) "a2") 1).1 ∧
      (((serve sampleConstants
          (serve sampleConstants [] (Request.create (sampleData "A001" none) "a1") 0).1
          (Request.create (sampleData "A002" none) "a2") 1).1.map Prod.fst).Nodup ∧
        (∀ e ∈ (serve sampleConstants
          (serve sampleConstants [] (Request.create (sampleData "A001" none) "a1") 0).1
          (Request.create (sampleData "A002" none) "a2") 1).1, e.2.id = e.1) ∧
        ((Store.values (serve sampleConstants
          (serve sampleConstants [] (Request.create (sampleData "A001" none) "a1") 0).1
          (Request.create (sampleData "A002" none) "a2") 1).1).map Agent.id).Nodup ∧
        ((Store.values (serve sampleConstants
          (serve sampleConstants [] (Request.create (sampleData "A001" none) "a1") 0).1
          (Request.create (sampleData "A002" none) "a2") 1).1).map Agent.agentCode).Nodup) :=
  ⟨Reachable.serve _ 1 (Reachable.serve _ 0 Reachable.empty),
    reachable_unique_id_and_code sampleConstants _
      (Reachable.serve _ 1 (Reachable.serve _ 0 Reachable.empty))⟩

/-- Serving a request keeps every stored status inside the Status Registry: the
constructor builds no agent with a status outside it, the status update checks
the registry, and the other operations do not write `status`. -/
theorem registered_after_serve (K : Constants) (agents : Store) (req : Request) (now : Nat)
    (h : ∀ e ∈ agents, e.2.status ∈ K.AGENT_STATUS) :
    ∀ e ∈ (serve K agents req now).1, e.2.status ∈ K.AGENT_STATUS := by
  cases req with
  | create agentData newId =>
    intro e he
    simp only [serve, createAgent] at he
    cases hfind : (Store.values agents).find?
        (fun agent => decide (agent.agentCode = agentData.agentCode)) with
    | some found =>
      rw [hfind] at he
      exact h e he
    | none =>
      rw [hfind] at he
      cases hcons : Agent.construct K agentData newId now with
      | none =>
        rw [hcons] at he
        exact h e he
      | some newAgent =>
        rw [hcons] at he
        rcases mem_jsSet agents _ _ e he with h2 | h2
        · exact h e h2
        · rw [h2]
          exact (Agent.construct_some K agentData newId now newAgent hcons).2.2.2
  | update id body =>
    intro e he
    simp only [serve, updateAgent] at he
    cases hget : jsGet agents id with
    | none =>
      rw [hget] at he
      exact h e he
    | some agent =>
      rw [hget] at he
      rcases mem_jsSet agents _ _ e he with h2 | h2
      · exact h e h2
      · rw [h2]
        exact h (id, agent) (jsGet_mem agents id agent hget)
  | updateStatus id status reason =>
    intro e he
    simp only [serve] at he
    rcases updateAgentStatus_cases K agents id status reason now with hc | hc
    · rw [hc.1] at he
      exact h e he
    · obtain ⟨agent, s, next, _, _, hreg, _, _, heq⟩ := hc
      rw [heq] at he
      rcases mem_jsSet agents _ _ e he with h2 | h2
      · exact h e h2
      · rw [h2]
        exact hreg
  | delete id =>
    intro e he
    simp only [serve, deleteAgent] at he
    cases hget : jsGet agents id with
    | none =>
      rw [hget] at he
      exact h e he
    | some agent =>
      rw [hget] at he
      exact h e ((List.filter_sublist agents).subset he)

/-- A create request whose status, or the default when it has none, is outside the
Status Registry stores nothing: it is answered with the duplicate-code error or
with the 500 of the catch branch, and the store is the one it was given. -/
theorem createAgent_rejects_unregistered (K : Constants) (agents : Store)
    (agentData : AgentData) (newId : String) (now : Nat)
    (hbad : agentData.status.getD K.initialStatus ∉ K.AGENT_STATUS) :
    (createAgent K agents agentData newId now).1 = agents ∧
      (createAgent K agents agentData newId now).2.success = false := by
  have hcons : Agent.construct K agentData newId now = none := by
    simp [Agent.construct, hbad]
  unfold createAgent
  cases hfind : (Store.values agents).find?
      (fun agent => decide (agent.agentCode = agentData.agentCode)) with
  | some found => exact ⟨rfl, rfl⟩
  | none =>
    rw [hcons]
    exact ⟨rfl, rfl⟩

/-- C8: in every store reachable from the empty store by create, update,
status-update and delete requests with arbitrary bodies, a create request with a
status outside the registry included, the status of every agent is a member of
the Status Registry. -/
theorem reachable_status_registered (K : Constants) (agents : Store)
    (h : Reachable K agents) :
    ∀ a ∈ Store.values agents, a.status ∈ K.AGENT_STATUS := by
  have hall : ∀ e ∈ agents, e.2.status ∈ K.AGENT_STATUS := by
    induction h with
    | empty => intro e he; exact absurd he (List.not_mem_nil e)
    | serve req now _ ih => exact registered_after_serve K _ req now ih
  intro a ha
  obtain ⟨e, he, hea⟩ := List.mem_map.mp ha
  rw [← hea]
  exact hall e he

/-- C8, on the store reached by a create request for `A001` and a create request
for `A002` that carries the status `lunch`: the second request stores nothing,
and the one agent of the store is `available`. -/
theorem reachable_status_registered_witness :
    Reachable sampleConstants
        (serve sampleConstants
          (serve sampleConstants [] (Request.create (sampleData "A001" none) "a1") 0).1
          (Request.create (sampleData "A002" (some "lunch")) "a2") 1).1 ∧
      (serve sampleConstants
          (serve sampleConstants [] (Request.create (sampleData "A001" none) "a1") 0).1
          (Request.create (sampleData "A002" (some "lunch")) "a2") 1).1 = sampleStore ∧
      ∀ a ∈ Store.values (serve sampleConstants
          (serve sampleConstants [] (Request.create (sampleData "A001" none) "a1") 0).1
          (Request.create (sampleData "A002" (some "lunch")) "a2") 1).1,
        a.status ∈ sampleConstants.AGENT_STATUS :=
  ⟨Reachable.serve _ 1 (Reachable.serve _ 0 Reachable.empty), by decide,
    reachable_status_registered sampleConstants _
      (Reachable.serve _ 1 (Reachable.serve _ 0 Reachable.empty))⟩

/-- C9: for an existing agent, `updateAgent` stores and returns the agent in which
each of `name`, `email`, `department`, `skills` is the request's value when that
value is truthy and the current value otherwise, `updatedAt` is the current
time, and `id`, `agentCode`, `status`, `statusReason`, `statusHistory` and
`createdAt` are as before; the keys of the store and every other agent are
untouched. -/
theorem updateAgent_partial_update (K : Constants) (agents : Store) (id : String)
    (body : UpdateBody) (now : Nat) (agent : Agent) (hget : jsGet agents id = some agent) :
    ∃ after,
      updateAgent K agents id body now =
        (jsSet agents id after,
          { success := true, statusCode := 200, message := K.API_MESSAGES.AGENT_UPDATED,
            data := Payload.agent after }) ∧
      jsGet (updateAgent K agents id body now).1 id = some after ∧
      (truthyString body.name = true → body.name = some after.name) ∧
      (truthyString body.name = false → after.name = agent.name) ∧
      (truthyString body.email = true → body.email = some after.email) ∧
      (truthyString body.email = false → after.email = agent.email) ∧
      (truthyString body.department = true → body.department = some after.department) ∧
      (truthyString body.department = false → after.department = agent.department) ∧
      (truthyArray body.skills = true → body.skills = some after.skills) ∧
      (truthyArray body.skills = false → after.skills = agent.skills) ∧
      after.updatedAt = now ∧
      after.id = agent.id ∧ after.agentCode = agent.agentCode ∧
      after.status = agent.status ∧ after.statusReason = agent.statusReason ∧
      after.statusHistory = agent.statusHistory ∧ after.createdAt = agent.createdAt ∧
      (updateAgent K agents id body now).1.map Prod.fst = agents.map Prod.fst ∧
      ∀ key, key ≠ id → jsGet (updateAgent K agents id body now).1 key = jsGet agents key := by
  have hstr : ∀ (value : Option String) (current : String),
      (truthyString value = true → value = some (assignString value current)) ∧
        (truthyString value = false → assignString value current = current) := by
    intro value current
    cases value with
    | none => simp [truthyString, assignString]
    | some v =>
      by_cases hv : v = ""
      · simp [truthyString, assignString, hv]
      · simp [truthyString, assignString, hv]
  have harr : ∀ (value : Option (List String)) (current : List String),
      (truthyArray value = true → value = some (assignArray value current)) ∧
        (truthyArray value = false → assignArray value current = current) := by
    intro value current
    cases value with
    | none => simp [truthyArray, assignArray]
    | some v => simp [truthyArray, assignArray]
  have heq : updateAgent K agents id body now =
      (jsSet agents id
          { agent with
            name := assignString body.name agent.name
            email := assignString body.email agent.email
            department := assignString body.department agent.department
            skills := assignArray body.skills agent.skills
            updatedAt := now },
        sendSuccess K.API_MESSAGES.AGENT_UPDATED
          (Payload.agent
            { agent with
              name := assignString body.name agent.name
              email := assignString body.email agent.email
              department := assignString body.department agent.department
              skills := assignArray body.skills agent.skills
              updatedAt := now }) 200) := by
    simp [updateAgent, hget]
  refine ⟨{ agent with
      name := assignString body.name agent.name
      email := assignString body.email agent.email
      department := assignString body.department agent.department
      skills := assignArray body.skills agent.skills
      updatedAt := now }, by rw [heq]; rfl, ?_, (hstr _ _).1, (hstr _ _).2, (hstr _ _).1, (hstr _ _).2,
    (hstr _ _).1, (hstr _ _).2, (harr _ _).1, (harr _ _).2, rfl, rfl, rfl, rfl, rfl, rfl, rfl,
    ?_, ?_⟩
  · rw [heq]
    exact jsGet_jsSet_self agents id _
  · rw [heq]
    exact jsSet_keys_same agents id _ agent hget
  · intro key hkey
    rw [heq]
    exact jsGet_jsSet_other agents id key _ hkey

/-- C9, the specification's example: a body that carries only `department: "X"`
(and, here, an empty `name`) changes `department` and `updatedAt` of agent `a1`
and nothing else. -/
theorem updateAgent_partial_update_witness :
    jsGet sampleStore "a1" = some (sampleAgent "a1" "A001" "available") ∧
      (updateAgent sampleConstants sampleStore "a1"
          { name := some "", email := none, department := some "X", skills := none } 9).1 =
        [("a1", { sampleAgent "a1" "A001" "available" with department := "X", updatedAt := 9 })] ∧
      ∃ after,
        updateAgent sampleConstants sampleStore "a1"
            { name := some "", email := none, department := some "X", skills := none } 9 =
          (jsSet sampleStore "a1" after,
            { success := true, statusCode := 200,
              message := sampleConstants.API_MESSAGES.AGENT_UPDATED,
              data := Payload.agent after }) ∧
        after.department = "X" ∧ after.updatedAt = 9 ∧
        after.name = (sampleAgent "a1" "A001" "available").name ∧
        after.email = (sampleAgent "a1" "A001" "available").email ∧
        after.skills = (sampleAgent "a1" "A001" "available").skills ∧
        after.status = (sampleAgent "a1" "A001" "available").status :=
  ⟨by decide, by decide,
    (updateAgent_partial_update sampleConstants sampleStore "a1"
      { name := some "", email := none, department := some "X", skills := none } 9
      (sampleAgent "a1" "A001" "available") (by decide)).elim
      (fun after h =>
        ⟨after, h.1,
          (Option.some.inj (h.2.2.2.2.2.2.1 (by decide))).symm,
          h.2.2.2.2.2.2.2.2.2.2.1,
          h.2.2.2.1 (by decide),
          h.2.2.2.2.2.1 (by decide),
          h.2.2.2.2.2.2.2.2.2.1 (by decide),
          h.2.2.2.2.2.2.2.2.2.2.2.2.2.1⟩)⟩

/-! ## The status summary: double arithmetic of the percentages -/

theorem floorLog2Aux_spec (fuel : Nat) : ∀ n, n ≤ fuel → 0 < n →
    2 ^ floorLog2Aux fuel n ≤ n ∧ n < 2 ^ (floorLog2Aux fuel n + 1) := by
  induction fuel with
  | zero => intro n h1 h2; omega
  | succ fuel ih =>
    intro n h1 h2
    by_cases h : 2 ≤ n
    · have hrec := ih (n / 2) (by omega) (by omega)
      simp only [floorLog2Aux, h, if_true]
      obtain ⟨hlo, hhi⟩ := hrec
      constructor
      · rw [pow_succ]; omega
      · rw [pow_succ]; omega
    · simp only [floorLog2Aux, h, if_false]
      omega

theorem floorLog2_spec (n : Nat) (h : 0 < n) :
    2 ^ floorLog2 n ≤ n ∧ n < 2 ^ (floorLog2 n + 1) :=
  floorLog2Aux_spec n n (le_refl n) h

theorem roundHalfEven_spec (n d : Nat) (hd : 0 < d) :
    2 * (roundHalfEven n d * d) ≤ 2 * n + d ∧ 2 * n ≤ 2 * (roundHalfEven n d * d) + d := by
  have hdm := Nat.div_add_mod n d
  have hmod := Nat.mod_lt n hd
  have hq : n / d * d = d * (n / d) := Nat.mul_comm _ _
  unfold roundHalfEven
  simp only
  split
  · rw [hq]; omega
  · split
    · rw [Nat.add_mul, hq]; omega
    · split
      · rw [hq]; omega
      · rw [Nat.add_mul, hq]; omega

theorem floorLog2_mono (c t : Nat) (hc : 0 < c) (hct : c ≤ t) : floorLog2 c ≤ floorLog2 t := by
  have h1 := (floorLog2_spec c hc).1
  have h2 := (floorLog2_spec t (by omega)).2
  have h3 : 2 ^ floorLog2 c < 2 ^ (floorLog2 t + 1) := by omega
  have h4 := (Nat.pow_lt_pow_iff_right (by norm_num : 1 < 2)).mp h3
  omega

/-- The quotient of two array lengths, `0 < c ≤ t`: the mantissa is the rounded
`c * 2 ^ a / t` for the `a` that puts it between `2 ^ 52` and `2 ^ 53`. -/
theorem Double.div_spec (c t : Nat) (hc : 0 < c) (hct : c ≤ t) :
    ∃ a : Nat, 52 ≤ a ∧
      Double.div c t = { mant := roundHalfEven (c * 2 ^ a) t, exp := -(a : Int) } ∧
      2 ^ 52 * t ≤ c * 2 ^ a ∧ c * 2 ^ a < 2 ^ 53 * t := by
  have hmono := floorLog2_mono c t hc hct
  obtain ⟨hc1, hc2⟩ := floorLog2_spec c hc
  obtain ⟨ht1, ht2⟩ := floorLog2_spec t (by omega)
  obtain ⟨k, hk⟩ : ∃ k, floorLog2 t = floorLog2 c + k := ⟨floorLog2 t - floorLog2 c, by omega⟩
  have hl : (floorLog2 c : Int) - (floorLog2 t : Int) = -(k : Int) := by omega
  have hcne : c ≠ 0 := by omega
  rw [hk, pow_add] at ht1
  rw [hk, show floorLog2 c + k + 1 = (floorLog2 c + 1) + k by omega, pow_add] at ht2
  rw [pow_succ] at hc2 ht2
  have hpk : 0 < 2 ^ k := Nat.two_pow_pos k
  -- c * 2 ^ k lies in [2 ^ (L + k), 2 ^ (L + k + 1))
  have hck1 : 2 ^ floorLog2 c * 2 ^ k ≤ c * 2 ^ k := Nat.mul_le_mul_right _ hc1
  have hck2 : c * 2 ^ k < 2 ^ floorLog2 c * 2 * 2 ^ k := Nat.mul_lt_mul_of_pos_right hc2 hpk
  by_cases hge : t ≤ c * 2 ^ k
  · refine ⟨k + 52, by omega, ?_, ?_, ?_⟩
    · unfold Double.div Double.round
      simp only [hcne, if_false, hl]
      have e1 : (-(k : Int)).toNat = 0 := by omega
      have e2 : (- -(k : Int)).toNat = k := by omega
      simp only [e1, e2, pow_zero, Nat.mul_one, hge, if_true]
      have e3 : (-(k : Int) - 52).toNat = 0 := by omega
      have e4 : (-(-(k : Int) - 52)).toNat = k + 52 := by omega
      simp only [e3, e4, pow_zero, Nat.mul_one]
      congr 1
      omega
    · rw [pow_add]
      calc 2 ^ 52 * t = t * 2 ^ 52 := Nat.mul_comm _ _
        _ ≤ (c * 2 ^ k) * 2 ^ 52 := Nat.mul_le_mul_right _ hge
        _ = c * (2 ^ k * 2 ^ 52) := Nat.mul_assoc _ _ _
    · rw [pow_add]
      have h5 : c * 2 ^ k < 2 * t := by
        have : 2 ^ floorLog2 c * 2 * 2 ^ k = 2 * (2 ^ floorLog2 c * 2 ^ k) := by ring
        omega
      calc c * (2 ^ k * 2 ^ 52) = (c * 2 ^ k) * 2 ^ 52 := (Nat.mul_assoc _ _ _).symm
        _ < (2 * t) * 2 ^ 52 := Nat.mul_lt_mul_of_pos_right h5 (by norm_num)
        _ = 2 ^ 53 * t := by ring
  · refine ⟨k + 53, by omega, ?_, ?_, ?_⟩
    · unfold Double.div Double.round
      simp only [hcne, if_false, hl]
      have e1 : (-(k : Int)).toNat = 0 := by omega
      have e2 : (- -(k : Int)).toNat = k := by omega
      simp only [e1, e2, pow_zero, Nat.mul_one, hge, if_false]
      have e3 : (-(k : Int) - 53).toNat = 0 := by omega
      have e4 : (-(-(k : Int) - 53)).toNat = k + 53 := by omega
      simp only [e3, e4, pow_zero, Nat.mul_one]
      congr 1
      omega
    · rw [pow_add]
      have h5 : t ≤ 2 * (c * 2 ^ k) := by
        have : 2 ^ floorLog2 c * 2 * 2 ^ k = 2 * (2 ^ floorLog2 c * 2 ^ k) := by ring
        omega
      calc 2 ^ 52 * t ≤ 2 ^ 52 * (2 * (c * 2 ^ k)) := Nat.mul_le_mul_left _ h5
        _ = c * (2 ^ k * 2 ^ 53) := by ring
    · rw [pow_add]
      have h5 : c * 2 ^ k < t := by omega
      calc c * (2 ^ k * 2 ^ 53) = (c * 2 ^ k) * 2 ^ 53 := (Nat.mul_assoc _ _ _).symm
        _ < t * 2 ^ 53 := Nat.mul_lt_mul_of_pos_right h5 (by norm_num)
        _ = 2 ^ 53 * t := Nat.mul_comm _ _

/-- The product of a double with a 53-bit mantissa and 100: the exact product
`m * 100` loses its last `b ≤ 7` bits. -/
theorem Double.mul_spec (m : Nat) (e : Int) (hm1 : 2 ^ 52 ≤ m) (hm2 : m ≤ 2 ^ 53) :
    ∃ b : Nat, b ≤ 7 ∧
      Double.mul { mant := m, exp := e } 100 =
        { mant := roundHalfEven (m * 100) (2 ^ b), exp := (b : Int) + e } := by
  have hpos : 0 < m * 100 := by omega
  obtain ⟨h1, h2⟩ := floorLog2_spec (m * 100) hpos
  have hlo : 58 ≤ floorLog2 (m * 100) := by
    have h3 : 2 ^ 58 < 2 ^ (floorLog2 (m * 100) + 1) := by
      have : (2 : Nat) ^ 58 ≤ m * 100 := by norm_num at hm1 ⊢; omega
      omega
    have h4 := (Nat.pow_lt_pow_iff_right (by norm_num : 1 < 2)).mp h3
    omega
  have hhi : floorLog2 (m * 100) ≤ 59 := by
    have h3 : 2 ^ floorLog2 (m * 100) < 2 ^ 60 := by
      have : m * 100 < (2 : Nat) ^ 60 := by norm_num at hm2 ⊢; omega
      omega
    have h4 := (Nat.pow_lt_pow_iff_right (by norm_num : 1 < 2)).mp h3
    omega
  obtain ⟨b, hb⟩ : ∃ b, floorLog2 (m * 100) = b + 52 := ⟨floorLog2 (m * 100) - 52, by omega⟩
  refine ⟨b, by omega, ?_⟩
  have hne : m * 100 ≠ 0 := by omega
  have hone : floorLog2 1 = 0 := by decide
  unfold Double.mul Double.round
  simp only [hne, if_false, hone, hb]
  have e0 : ((b + 52 : Nat) : Int) - ((0 : Nat) : Int) = ((b + 52 : Nat) : Int) := by simp
  simp only [e0]
  have e1 : (((b + 52 : Nat) : Int)).toNat = b + 52 := by omega
  have e2 : (-((b + 52 : Nat) : Int)).toNat = 0 := by omega
  simp only [e1, e2, pow_zero, Nat.mul_one, Nat.one_mul]
  rw [hb] at h1
  simp only [h1, if_true]
  have e3 : (((b + 52 : Nat) : Int) - 52).toNat = b := by omega
  have e4 : (-(((b + 52 : Nat) : Int) - 52)).toNat = 0 := by omega
  simp only [e3, e4, pow_zero, Nat.mul_one]
  congr 1
  omega

theorem mathRound_spec (m k : Nat) :
    2 * 2 ^ k * mathRound { mant := m, exp := -(k : Int) } ≤ 2 * m + 2 ^ k ∧
      2 * m + 2 ^ k < 2 * 2 ^ k * (mathRound { mant := m, exp := -(k : Int) } + 1) := by
  have e1 : (-(k : Int)).toNat = 0 := by omega
  have e2 : (- -(k : Int)).toNat = k := by omega
  unfold mathRound
  simp only [e1, e2, pow_zero, Nat.mul_one]
  have hpos : 0 < 2 * 2 ^ k := by have := Nat.two_pow_pos k; omega
  constructor
  · exact Nat.mul_div_le _ _
  · exact Nat.lt_mul_div_succ _ hpos

/-- The arithmetic of the three roundings. -/
theorem nearest_of_roundings (c t m1 m2 p A B R : Nat)
    (hlt : t < 2 ^ 32) (hA : A = R * B) (hA52 : 2 ^ 52 ≤ A) (hB : B ≤ 128)
    (h1 : 2 * (m1 * t) ≤ 2 * (c * A) + t) (h1' : 2 * (c * A) ≤ 2 * (m1 * t) + t)
    (h2 : 2 * (m2 * B) ≤ 2 * (m1 * 100) + B) (h2' : 2 * (m1 * 100) ≤ 2 * (m2 * B) + B)
    (h3 : 2 * R * p ≤ 2 * m2 + R) (h3' : 2 * m2 + R < 2 * R * (p + 1)) :
    2 * (p * t) ≤ 200 * c + t ∧ 200 * c ≤ 2 * (p * t) + t := by
  subst hA
  norm_num at hlt hA52
  have f2 : 2 * (m2 * B) * t ≤ (2 * (m1 * 100) + B) * t := Nat.mul_le_mul_right _ h2
  have f2' : 2 * (m1 * 100) * t ≤ (2 * (m2 * B) + B) * t := Nat.mul_le_mul_right _ h2'
  have f3 : 2 * R * p * (B * t) ≤ (2 * m2 + R) * (B * t) := Nat.mul_le_mul_right _ h3
  have f3' : (2 * m2 + R) * (B * t) ≤ 2 * R * (p + 1) * (B * t) :=
    Nat.mul_le_mul_right _ (Nat.le_of_lt h3')
  have fB : B * t ≤ 128 * t := Nat.mul_le_mul_right _ hB
  constructor
  · by_contra hcon
    push_neg at hcon
    have g : (200 * c + t + 1) * (R * B) ≤ 2 * (p * t) * (R * B) :=
      Nat.mul_le_mul_right _ hcon
    nlinarith
  · by_contra hcon
    push_neg at hcon
    have g : (2 * (p * t) + t + 1) * (R * B) ≤ 200 * c * (R * B) :=
      Nat.mul_le_mul_right _ hcon
    have hR : 0 < R := by
      rcases Nat.eq_zero_or_pos R with h | h
      · subst h; omega
      · exact h
    have f3s : (2 * m2 + R) * (B * t) < 2 * R * (p + 1) * (B * t) ∨ B * t = 0 := by
      rcases Nat.eq_zero_or_pos (B * t) with h | h
      · exact Or.inr h
      · exact Or.inl (Nat.mul_lt_mul_of_pos_right h3' h)
    nlinarith

theorem percentage_zero (t : Nat) : percentage 0 t = 0 := by
  unfold percentage
  split
  · simp [Double.div, Double.mul, Double.round, mathRound]
  · rfl

/-- The percentage of line 146 is an integer nearest to `100 * c / t`: it differs
from it by at most one half. -/
theorem percentage_nearest (c t : Nat) (ht : 0 < t) (hct : c ≤ t) (hlt : t < 2 ^ 32) :
    2 * (percentage c t * t) ≤ 200 * c + t ∧ 200 * c ≤ 2 * (percentage c t * t) + t := by
  rcases Nat.eq_zero_or_pos c with hc | hc
  · subst hc
    rw [percentage_zero]
    omega
  · obtain ⟨a, ha, hdiv, hn1, hn2⟩ := Double.div_spec c t hc hct
    obtain ⟨r1, r1'⟩ := roundHalfEven_spec (c * 2 ^ a) t ht
    have hm1 : 2 ^ 52 ≤ roundHalfEven (c * 2 ^ a) t := by
      by_contra hcon
      push_neg at hcon
      have : (roundHalfEven (c * 2 ^ a) t + 1) * t ≤ 2 ^ 52 * t := Nat.mul_le_mul_right _ hcon
      nlinarith
    have hm2 : roundHalfEven (c * 2 ^ a) t ≤ 2 ^ 53 := by
      by_contra hcon
      push_neg at hcon
      have : (2 ^ 53 + 1) * t ≤ roundHalfEven (c * 2 ^ a) t * t := Nat.mul_le_mul_right _ hcon
      nlinarith
    obtain ⟨b, hb, hmul⟩ := Double.mul_spec (roundHalfEven (c * 2 ^ a) t) (-(a : Int)) hm1 hm2
    obtain ⟨r2, r2'⟩ := roundHalfEven_spec (roundHalfEven (c * 2 ^ a) t * 100) (2 ^ b)
      (Nat.two_pow_pos b)
    obtain ⟨k, hk⟩ : ∃ k, a = k + b := ⟨a - b, by omega⟩
    have hexp : (b : Int) + -(a : Int) = -(k : Int) := by omega
    have hp : percentage c t = mathRound
        { mant := roundHalfEven (roundHalfEven (c * 2 ^ a) t * 100) (2 ^ b),
          exp := -(k : Int) } := by
      unfold percentage
      simp only [gt_iff_lt, ht, if_true]
      rw [hdiv, hmul, hexp]
    obtain ⟨r3, r3'⟩ := mathRound_spec
      (roundHalfEven (roundHalfEven (c * 2 ^ a) t * 100) (2 ^ b)) k
    rw [← hp] at r3 r3'
    have hB : 2 ^ b ≤ 128 := by
      calc 2 ^ b ≤ 2 ^ 7 := Nat.pow_le_pow_right (by norm_num) hb
        _ = 128 := by norm_num
    have hA52 : 2 ^ 52 ≤ 2 ^ a := Nat.pow_le_pow_right (by norm_num) ha
    exact nearest_of_roundings c t (roundHalfEven (c * 2 ^ a) t)
      (roundHalfEven (roundHalfEven (c * 2 ^ a) t * 100) (2 ^ b)) (percentage c t)
      (2 ^ a) (2 ^ b) (2 ^ k) hlt (by rw [hk, pow_add]) hA52 hB r1 r1' r2 r2' r3 r3'

/-! ## The status summary: the objects the loops build -/

theorem jsGet_eq_none {α : Type} (m : List (String × α)) (s : String)
    (h : s ∉ m.map Prod.fst) : jsGet m s = none := by
  induction m with
  | nil => rfl
  | cons x rest ih =>
    obtain ⟨k, w⟩ := x
    simp only [List.map_cons, List.mem_cons, not_or] at h
    have hk : ¬ k = s := fun e => h.1 e.symm
    simp [jsGet, hk, ih h.2]

theorem jsGet_of_mem_keys {α : Type} (m : List (String × α)) (key : String)
    (h : key ∈ m.map Prod.fst) : ∃ v, jsGet m key = some v := by
  induction m with
  | nil => simp at h
  | cons x rest ih =>
    obtain ⟨k, w⟩ := x
    by_cases hk : k = key
    · exact ⟨w, by simp [jsGet, hk]⟩
    · simp only [List.map_cons, List.mem_cons] at h
      rcases h with h | h
      · exact absurd h.symm hk
      · obtain ⟨v, hv⟩ := ih h
        exact ⟨v, by simp [jsGet, hk, hv]⟩

theorem not_mem_keys_of_jsGet_none {α : Type} (m : List (String × α)) (key : String)
    (h : jsGet m key = none) : key ∉ m.map Prod.fst := by
  intro hmem
  obtain ⟨v, hv⟩ := jsGet_of_mem_keys m key hmem
  rw [h] at hv
  cases hv

theorem objInsertIndex_perm {α : Type} (n : Nat) (key : String) (v : α)
    (obj : List (String × α)) : List.Perm (objInsertIndex n key v obj) ((key, v) :: obj) := by
  induction obj with
  | nil => exact List.Perm.refl _
  | cons x rest ih =>
    obtain ⟨k, w⟩ := x
    unfold objInsertIndex
    cases arrayIndex? k with
    | none => exact List.Perm.refl _
    | some m =>
      by_cases hlt : n < m
      · simp only [hlt, if_true]
        exact List.Perm.refl _
      · simp only [hlt, if_false]
        exact (List.Perm.cons _ ih).trans (List.Perm.swap _ _ _)

theorem jsGet_objInsertIndex {α : Type} (n : Nat) (key : String) (v : α)
    (obj : List (String × α)) (hnew : key ∉ obj.map Prod.fst) (other : String) :
    jsGet (objInsertIndex n key v obj) other =
      if key = other then some v else jsGet obj other := by
  induction obj with
  | nil => simp [objInsertIndex, jsGet]
  | cons x rest ih =>
    obtain ⟨k, w⟩ := x
    simp only [List.map_cons, List.mem_cons, not_or] at hnew
    unfold objInsertIndex
    cases arrayIndex? k with
    | none => simp [jsGet]
    | some m =>
      by_cases hlt : n < m
      · simp [hlt, jsGet]
      · simp only [hlt, if_false]
        by_cases hk : k = other
        · have hko : ¬ key = other := fun e => hnew.1 (e.trans hk.symm)
          simp [jsGet, hk, hko]
        · simp [jsGet, hk, ih hnew.2]

/-- A write to a plain object leaves the object a permutation of the old
properties with the new one when the key is new. -/
theorem objSet_perm_new {α : Type} (obj : List (String × α)) (key : String) (v : α)
    (hproto : key ≠ "__proto__") (hnew : key ∉ obj.map Prod.fst) :
    List.Perm (objSet obj key v) ((key, v) :: obj) := by
  unfold objSet
  simp only [hproto, if_false, jsGet_eq_none obj key hnew]
  cases arrayIndex? key with
  | none => exact List.perm_append_singleton _ _
  | some n => exact objInsertIndex_perm n key v obj

theorem jsGet_objSet_self {α : Type} (obj : List (String × α)) (key : String) (v : α)
    (hproto : key ≠ "__proto__") : jsGet (objSet obj key v) key = some v := by
  unfold objSet
  simp only [hproto, if_false]
  cases hget : jsGet obj key with
  | some w => exact jsGet_jsSet_self obj key v
  | none =>
    have hnew := not_mem_keys_of_jsGet_none obj key hget
    cases hidx : arrayIndex? key with
    | none =>
      simp only
      have : ∀ (m : List (String × α)), jsGet m key = none →
          jsGet (m ++ [(key, v)]) key = some v := by
        intro m
        induction m with
        | nil => intro _; simp [jsGet]
        | cons x rest ih =>
          obtain ⟨k, w⟩ := x
          intro h
          by_cases hk : k = key
          · simp [jsGet, hk] at h
          · simp [jsGet, hk] at h
            simp [jsGet, hk, ih h]
      exact this obj hget
    | some n =>
      simp only
      rw [jsGet_objInsertIndex n key v obj hnew key]
      simp

theorem jsGet_objSet_other {α : Type} (obj : List (String × α)) (key other : String) (v : α)
    (h : other ≠ key) : jsGet (objSet obj key v) other = jsGet obj other := by
  unfold objSet
  by_cases hproto : key = "__proto__"
  · simp [hproto]
  · simp only [hproto, if_false]
    cases hget : jsGet obj key with
    | some w => exact jsGet_jsSet_other obj key other v h
    | none =>
      have hnew := not_mem_keys_of_jsGet_none obj key hget
      cases hidx : arrayIndex? key with
      | none =>
        simp only
        have : ∀ (m : List (String × α)),
            jsGet (m ++ [(key, v)]) other = jsGet m other := by
          intro m
          induction m with
          | nil =>
            have : ¬ key = other := fun e => h e.symm
            simp [jsGet, this]
          | cons x rest ih =>
            obtain ⟨k, w⟩ := x
            by_cases hk : k = other
            · simp [jsGet, hk]
            · simp [jsGet, hk, ih]
        exact this obj
      | some n =>
        simp only
        rw [jsGet_objInsertIndex n key v obj hnew other]
        have : ¬ key = other := fun e => h e.symm
        simp [this]

theorem mem_objSet {α : Type} (obj : List (String × α)) (key : String) (v : α)
    (e : String × α) (h : e ∈ objSet obj key v) : e ∈ obj ∨ e = (key, v) := by
  unfold objSet at h
  by_cases hproto : key = "__proto__"
  · simp only [hproto, if_true] at h
    exact Or.inl h
  · simp only [hproto, if_false] at h
    cases hget : jsGet obj key with
    | some w =>
      rw [hget] at h
      exact mem_jsSet obj key v e h
    | none =>
      rw [hget] at h
      cases hidx : arrayIndex? key with
      | none =>
        rw [hidx] at h
        simp only [List.mem_append, List.mem_singleton] at h
        exact h
      | some n =>
        rw [hidx] at h
        simp only at h
        rcases List.mem_cons.mp ((objInsertIndex_perm n key v obj).subset h) with h2 | h2
        · exact Or.inr h2
        · exact Or.inl h2

theorem objSet_keys_nodup {α : Type} (obj : List (String × α)) (key : String) (v : α)
    (h : (obj.map Prod.fst).Nodup) : ((objSet obj key v).map Prod.fst).Nodup := by
  by_cases hproto : key = "__proto__"
  · simp only [objSet, hproto, if_true]
    exact h
  · cases hget : jsGet obj key with
    | some w =>
      simp only [objSet, hproto, if_false, hget]
      exact jsSet_keys_nodup obj key v h
    | none =>
      have hnew := not_mem_keys_of_jsGet_none obj key hget
      have hperm := (objSet_perm_new obj key v hproto hnew).map Prod.fst
      rw [hperm.nodup_iff]
      simp only [List.map_cons, List.nodup_cons]
      exact ⟨hnew, h⟩

theorem objSet_no_proto {α : Type} (obj : List (String × α)) (key : String) (v : α)
    (h : "__proto__" ∉ obj.map Prod.fst) : "__proto__" ∉ (objSet obj key v).map Prod.fst := by
  intro hmem
  obtain ⟨e, he, hfst⟩ := List.mem_map.mp hmem
  rcases mem_objSet obj key v e he with h2 | h2
  · exact h (List.mem_map.mpr ⟨e, h2, hfst⟩)
  · have hkey : key = "__proto__" := by
      rw [h2] at hfst
      exact hfst
    rw [hkey] at he
    simp only [objSet, if_true] at he
    exact h (List.mem_map.mpr ⟨e, he, hfst⟩)

theorem jsGet_foldl_objSet {α : Type} (g : String → α) (keys : List String) :
    ∀ (init : List (String × α)) (s : String),
      jsGet (keys.foldl (fun o k => objSet o k (g k)) init) s =
        if s ∈ keys ∧ s ≠ "__proto__" then some (g s) else jsGet init s := by
  induction keys with
  | nil => intro init s; simp
  | cons k ks ih =>
    intro init s
    rw [List.foldl_cons, ih]
    by_cases hproto : s = "__proto__"
    · have hinit : jsGet (objSet init k (g k)) s = jsGet init s := by
        by_cases hk : s = k
        · have hk2 : k = "__proto__" := hk ▸ hproto
          simp [objSet, hk2]
        · exact jsGet_objSet_other init k s (g k) hk
      simp [hproto] at hinit ⊢
      exact hinit
    · by_cases hs : s ∈ ks
      · simp [hs, hproto]
      · by_cases hk : s = k
        · subst hk
          simp [hs, hproto, jsGet_objSet_self init s (g s) hproto]
        · simp [hs, hk, hproto, jsGet_objSet_other init k s (g k) hk]

theorem foldl_objSet_keys_nodup {α : Type} (g : String → α) (keys : List String) :
    ∀ (init : List (String × α)), (init.map Prod.fst).Nodup →
      ((keys.foldl (fun o k => objSet o k (g k)) init).map Prod.fst).Nodup := by
  induction keys with
  | nil => intro init h; exact h
  | cons k ks ih =>
    intro init h
    rw [List.foldl_cons]
    exact ih _ (objSet_keys_nodup init k (g k) h)

theorem foldl_objSet_no_proto {α : Type} (g : String → α) (keys : List String) :
    ∀ (init : List (String × α)), "__proto__" ∉ init.map Prod.fst →
      "__proto__" ∉ (keys.foldl (fun o k => objSet o k (g k)) init).map Prod.fst := by
  induction keys with
  | nil => intro init h; exact h
  | cons k ks ih =>
    intro init h
    rw [List.foldl_cons]
    exact ih _ (objSet_no_proto init k (g k) h)

theorem jsGet_foldl_objSet_entries {α β : Type} (f : α → β) (entries : List (String × α)) :
    (entries.map Prod.fst).Nodup → "__proto__" ∉ entries.map Prod.fst →
    ∀ (init : List (String × β)) (s : String),
      jsGet (entries.foldl (fun o e => objSet o e.1 (f e.2)) init) s =
        match jsGet entries s with
        | some n => some (f n)
        | none => jsGet init s := by
  induction entries with
  | nil => intro _ _ init s; simp [jsGet]
  | cons e es ih =>
    intro hnodup hproto init s
    obtain ⟨k, n⟩ := e
    simp only [List.map_cons, List.nodup_cons] at hnodup
    simp only [List.map_cons, List.mem_cons, not_or] at hproto
    rw [List.foldl_cons, ih hnodup.2 hproto.2]
    have hkp : k ≠ "__proto__" := fun e => hproto.1 e.symm
    by_cases hk : k = s
    · subst hk
      simp [jsGet, jsGet_eq_none es k hnodup.1, jsGet_objSet_self init k (f n) hkp]
    · have hk2 : s ≠ k := fun e => hk e.symm
      simp [jsGet, hk, jsGet_objSet_other init k s (f n) hk2]

theorem mem_foldl_objSet_entries {α β : Type} (f : α → β) (entries : List (String × α)) :
    ∀ (init : List (String × β)) (x : String × β),
      x ∈ entries.foldl (fun o e => objSet o e.1 (f e.2)) init →
      x ∈ init ∨ ∃ e ∈ entries, x = (e.1, f e.2) := by
  induction entries with
  | nil => intro init x hx; exact Or.inl hx
  | cons e es ih =>
    intro init x hx
    rw [List.foldl_cons] at hx
    rcases ih _ x hx with h | ⟨e2, he2, hx2⟩
    · rcases mem_objSet init e.1 (f e.2) x h with h2 | h2
      · exact Or.inl h2
      · exact Or.inr ⟨e, List.mem_cons_self _ _, h2⟩
    · exact Or.inr ⟨e2, List.mem_cons_of_mem _ he2, hx2⟩

/-- Writing distinct new keys, none of them `__proto__`, gives the old properties
and one property per key, in some order. -/
theorem foldl_objSet_perm {α : Type} (g : String → α) (keys : List String) :
    ∀ (init : List (String × α)), keys.Nodup → "__proto__" ∉ keys →
      (∀ k ∈ keys, k ∉ init.map Prod.fst) →
      List.Perm (keys.foldl (fun o k => objSet o k (g k)) init)
        (init ++ keys.map (fun k => (k, g k))) := by
  induction keys with
  | nil => intro init _ _ _; simp
  | cons k ks ih =>
    intro init hnodup hproto hnew
    simp only [List.nodup_cons] at hnodup
    simp only [List.mem_cons, not_or] at hproto
    have hkp : k ≠ "__proto__" := fun e => hproto.1 e.symm
    have hknew : k ∉ init.map Prod.fst := hnew k (List.mem_cons_self _ _)
    have hstep := objSet_perm_new init k (g k) hkp hknew
    rw [List.foldl_cons]
    have hrest : ∀ k2 ∈ ks, k2 ∉ (objSet init k (g k)).map Prod.fst := by
      intro k2 hk2 hmem
      have hmem2 := (hstep.map Prod.fst).subset hmem
      simp only [List.map_cons, List.mem_cons] at hmem2
      rcases hmem2 with h | h
      · exact hnodup.1 (h ▸ hk2)
      · exact hnew k2 (List.mem_cons_of_mem _ hk2) h
    refine (ih _ hnodup.2 hproto.2 hrest).trans ?_
    simp only [List.map_cons]
    refine (List.Perm.append_right _ hstep).trans ?_
    simp only [List.cons_append]
    exact List.perm_middle.symm
/-- An integer within one half of `100 * c / t` is that quotient rounded half up,
`(200 * c + t) / (2 * t)`, or, when the quotient lies exactly between two
integers, possibly the lower of the two. -/
theorem nearest_halfUp (p c t : Nat) (ht : 0 < t)
    (h1 : 2 * (p * t) ≤ 200 * c + t) (h2 : 200 * c ≤ 2 * (p * t) + t) :
    p = (200 * c + t) / (2 * t) ∨
      ((200 * c + t) % (2 * t) = 0 ∧ p + 1 = (200 * c + t) / (2 * t)) := by
  have hD : 0 < 2 * t := by omega
  have hdm := Nat.div_add_mod (200 * c + t) (2 * t)
  have hmod := Nat.mod_lt (200 * c + t) hD
  have hlo : p ≤ (200 * c + t) / (2 * t) := by
    rw [Nat.le_div_iff_mul_le hD]
    calc p * (2 * t) = 2 * (p * t) := by ring
      _ ≤ 200 * c + t := h1
  have hhi : (200 * c + t) / (2 * t) ≤ p + 1 := by
    have h3 : (200 * c + t) / (2 * t) * (2 * t) ≤ (p + 1) * (2 * t) := by
      calc (200 * c + t) / (2 * t) * (2 * t) ≤ 200 * c + t := Nat.div_mul_le_self _ _
        _ ≤ 2 * (p * t) + t + t := by omega
        _ = (p + 1) * (2 * t) := by ring
    exact Nat.le_of_mul_le_mul_right h3 hD
  rcases Nat.lt_or_ge ((200 * c + t) / (2 * t)) (p + 1) with hlt | hge
  · left
    omega
  · right
    have heq : (200 * c + t) / (2 * t) = p + 1 := by omega
    refine ⟨?_, heq.symm⟩
    rw [heq] at hdm
    have h4 : 2 * t * (p + 1) = 2 * (p * t) + t + t := by ring
    omega

/-- At an exact tie the percentage of line 146 is not always the upper neighbour:
12.5 gives 13, and 57.5 gives 57, because `23 / 40` is rounded before it is
multiplied by 100. -/
theorem percentage_at_ties : percentage 1 8 = 13 ∧ percentage 23 40 = 57 := by
  decide

/-- C10: for a store with at least one agent (and fewer than `2 ^ 32`, the bound
on the length of a JavaScript array), `getStatusSummary` returns `totalAgents`
equal to the number of agents, and for every registry status `s` other than
`__proto__` the count of the agents whose status is `s` and a percentage that is
an integer nearest to `100 * count / totalAgents`: it differs from that quotient
by at most one half, so it is the quotient rounded half up,
`(200 * count + n) / (2 * n)`, except possibly when the quotient lies exactly
between two integers, where it is one of the two.  For the key `__proto__` the
summary has no count and no percentage. -/
theorem getStatusSummary_counts_percentages (K : Constants) (agents : Store) (now : Nat)
    (hpos : 0 < agents.length) (hlen : agents.length < 2 ^ 32) :
    ∃ summary,
      getStatusSummary K agents now =
        { success := true, statusCode := 200,
          message := "Status summary retrieved successfully",
          data := Payload.summary summary } ∧
      summary.totalAgents = agents.length ∧
      (∀ s ∈ K.AGENT_STATUS, s ≠ "__proto__" →
        jsGet summary.statusCounts s =
          some ((Store.values agents).filter (fun a => decide (a.status = s))).length ∧
        ∃ p, jsGet summary.statusPercentages s = some p ∧
          p = percentage ((Store.values agents).filter (fun a => decide (a.status = s))).length
            agents.length ∧
          2 * (p * agents.length) ≤
            200 * ((Store.values agents).filter (fun a => decide (a.status = s))).length
              + agents.length ∧
          200 * ((Store.values agents).filter (fun a => decide (a.status = s))).length ≤
            2 * (p * agents.length) + agents.length ∧
          (p = (200 * ((Store.values agents).filter (fun a => decide (a.status = s))).length
                + agents.length) / (2 * agents.length) ∨
            ((200 * ((Store.values agents).filter (fun a => decide (a.status = s))).length
                + agents.length) % (2 * agents.length) = 0 ∧
              p + 1 = (200 * ((Store.values agents).filter
                (fun a => decide (a.status = s))).length + agents.length)
                  / (2 * agents.length)))) ∧
      jsGet summary.statusCounts "__proto__" = none ∧
      jsGet summary.statusPercentages "__proto__" = none := by
  have hvals : (Store.values agents).length = agents.length := by simp [Store.values]
  have hnodup : ((statusCounts K (Store.values agents)).map Prod.fst).Nodup := by
    unfold statusCounts
    exact foldl_objSet_keys_nodup
      (fun s => ((Store.values agents).filter (fun a => decide (a.status = s))).length)
      K.AGENT_STATUS [] List.nodup_nil
  have hnoproto : "__proto__" ∉ (statusCounts K (Store.values agents)).map Prod.fst := by
    unfold statusCounts
    exact foldl_objSet_no_proto
      (fun s => ((Store.values agents).filter (fun a => decide (a.status = s))).length)
      K.AGENT_STATUS [] (by simp)
  have hpget : ∀ s, jsGet (statusPercentages (statusCounts K (Store.values agents))
      (Store.values agents).length) s =
      match jsGet (statusCounts K (Store.values agents)) s with
      | some n => some (percentage n (Store.values agents).length)
      | none => none := by
    intro s
    unfold statusPercentages
    rw [jsGet_foldl_objSet_entries (fun n => percentage n (Store.values agents).length) _
      hnodup hnoproto]
    cases jsGet (statusCounts K (Store.values agents)) s <;> rfl
  have hcproto : jsGet (statusCounts K (Store.values agents)) "__proto__" = none :=
    jsGet_eq_none _ _ hnoproto
  refine ⟨{ totalAgents := (Store.values agents).length
            statusCounts := statusCounts K (Store.values agents)
            statusPercentages :=
              statusPercentages (statusCounts K (Store.values agents))
                (Store.values agents).length
            lastUpdated := now }, rfl, hvals, ?_, hcproto, ?_⟩
  · intro s hs hsp
    have hcount : jsGet (statusCounts K (Store.values agents)) s =
        some ((Store.values agents).filter (fun a => decide (a.status = s))).length := by
      unfold statusCounts
      rw [jsGet_foldl_objSet
        (fun s => ((Store.values agents).filter (fun a => decide (a.status = s))).length)]
      simp [hs, hsp]
    have hle : ((Store.values agents).filter (fun a => decide (a.status = s))).length
        ≤ agents.length := by
      rw [← hvals]
      exact List.length_filter_le _ _
    have hnear := percentage_nearest _ _ hpos hle hlen
    have hperc : jsGet (statusPercentages (statusCounts K (Store.values agents))
        (Store.values agents).length) s = some (percentage
          ((Store.values agents).filter (fun a => decide (a.status = s))).length
          agents.length) := by
      rw [hpget s, hcount, hvals]
    exact ⟨hcount, _, hperc, rfl, hnear.1, hnear.2,
      nearest_halfUp _ _ _ hpos hnear.1 hnear.2⟩
  · show jsGet (statusPercentages (statusCounts K (Store.values agents))
      (Store.values agents).length) "__proto__" = none
    rw [hpget "__proto__", hcproto]

/-- C10, where the stated equality fails: with 23 of 40 agents `busy` the quotient
`100 * 23 / 40` is 57.5, which rounded half up is 58, and `getStatusSummary`
reports 57 (for the 17 `available` agents, 42.5, it reports 43).  And with the
registry `["__proto__", "available"]` the summary of a store that holds one agent
of each status has no count for the registry status `__proto__`. -/
theorem getStatusSummary_tie_rounds_down :
    getStatusSummary sampleConstants sampleStore40 0 =
        { success := true, statusCode := 200,
          message := "Status summary retrieved successfully",
          data := Payload.summary
            { totalAgents := 40
              statusCounts := [("available", 17), ("busy", 23), ("away", 0), ("offline", 0),
                ("on_break", 0), ("in_meeting", 0)]
              statusPercentages := [("available", 43), ("busy", 57), ("away", 0),
                ("offline", 0), ("on_break", 0), ("in_meeting", 0)]
              lastUpdated := 0 } } ∧
      2 * (100 * 23) = 2 * (57 * 40) + 40 ∧
      (200 * 23 + 40) / (2 * 40) = 58 ∧
      jsGet (statusPercentages (statusCounts sampleConstants (Store.values sampleStore40)) 40)
        "busy" ≠ some ((200 * 23 + 40) / (2 * 40)) ∧
      "__proto__" ∈ protoConstants.AGENT_STATUS ∧
      ((Store.values protoStore).filter (fun a => decide (a.status = "__proto__"))).length = 1 ∧
      jsGet (statusCounts protoConstants (Store.values protoStore)) "__proto__" = none := by
  refine ⟨by decide, by decide, by decide, by decide, by decide, by decide, by decide⟩

/-- C10, the specification's example: four agents with the statuses available,
available, busy, offline give the counts 2, 1, 1 and 0 for the others, and the
percentages 50, 25, 25 and 0 for the others. -/
theorem getStatusSummary_counts_percentages_witness :
    (0 < sampleStore4.length ∧ sampleStore4.length < 2 ^ 32) ∧
      getStatusSummary sampleConstants sampleStore4 3 =
        { success := true, statusCode := 200,
          message := "Status summary retrieved successfully",
          data := Payload.summary
            { totalAgents := 4
              statusCounts := [("available", 2), ("busy", 1), ("away", 0), ("offline", 1),
                ("on_break", 0), ("in_meeting", 0)]
              statusPercentages := [("available", 50), ("busy", 25), ("away", 0),
                ("offline", 25), ("on_break", 0), ("in_meeting", 0)]
              lastUpdated := 3 } } ∧
      ∃ summary,
        getStatusSummary sampleConstants sampleStore4 3 =
          { success := true, statusCode := 200,
            message := "Status summary retrieved successfully",
            data := Payload.summary summary } ∧
        summary.totalAgents = sampleStore4.length ∧
        (∀ s ∈ sampleConstants.AGENT_STATUS, s ≠ "__proto__" →
          jsGet summary.statusCounts s =
            some ((Store.values sampleStore4).filter (fun a => decide (a.status = s))).length ∧
          ∃ p, jsGet summary.statusPercentages s = some p ∧
            p = percentage
              ((Store.values sampleStore4).filter (fun a => decide (a.status = s))).length
              sampleStore4.length ∧
            2 * (p * sampleStore4.length) ≤
              200 * ((Store.values sampleStore4).filter (fun a => decide (a.status = s))).length
                + sampleStore4.length ∧
            200 * ((Store.values sampleStore4).filter (fun a => decide (a.status = s))).length ≤
              2 * (p * sampleStore4.length) + sampleStore4.length ∧
            (p = (200 * ((Store.values sampleStore4).filter
                  (fun a => decide (a.status = s))).length
                  + sampleStore4.length) / (2 * sampleStore4.length) ∨
              ((200 * ((Store.values sampleStore4).filter
                  (fun a => decide (a.status = s))).length
                  + sampleStore4.length) % (2 * sampleStore4.length) = 0 ∧
                p + 1 = (200 * ((Store.values sampleStore4).filter
                  (fun a => decide (a.status = s))).length + sampleStore4.length)
                    / (2 * sampleStore4.length)))) ∧
        jsGet summary.statusCounts "__proto__" = none ∧
        jsGet summary.statusPercentages "__proto__" = none :=
  ⟨⟨by decide, by decide⟩, by decide,
    getStatusSummary_counts_percentages sampleConstants sampleStore4 3 (by decide) (by decide)⟩

/-! ## The summary of an empty store -/

/-- C11, where it fails: with the registry `["__proto__", "available"]` the summary
of the empty store has a count and a percentage for `available` and none for the
registry status `__proto__`. -/
theorem getStatusSummary_empty_without_proto :
    "__proto__" ∈ protoConstants.AGENT_STATUS ∧
      getStatusSummary protoConstants [] 0 =
        { success := true, statusCode := 200,
          message := "Status summary retrieved successfully",
          data := Payload.summary
            { totalAgents := 0
              statusCounts := [("available", 0)]
              statusPercentages := [("available", 0)]
              lastUpdated := 0 } } ∧
      jsGet (statusCounts protoConstants (Store.values [])) "__proto__" = none ∧
      jsGet (statusPercentages (statusCounts protoConstants (Store.values [])) 0) "__proto__"
        = none := by
  refine ⟨by decide, by decide, by decide, by decide⟩

/-- C11, as amended: on the empty store `getStatusSummary` succeeds with
`totalAgents = 0` and, for every status of the Status Registry other than
`__proto__`, the count 0 and the percentage 0; for `__proto__` the summary has
neither, and it holds no other value than 0.  With `totalAgents = 0` the guard of
line 146 gives 0 whatever the count, without dividing. -/
theorem getStatusSummary_empty (K : Constants) (now : Nat) :
    ∃ summary,
      getStatusSummary K [] now =
        { success := true, statusCode := 200,
          message := "Status summary retrieved successfully",
          data := Payload.summary summary } ∧
      summary.totalAgents = 0 ∧
      (∀ s ∈ K.AGENT_STATUS, s ≠ "__proto__" →
        jsGet summary.statusCounts s = some 0 ∧ jsGet summary.statusPercentages s = some 0) ∧
      jsGet summary.statusCounts "__proto__" = none ∧
      jsGet summary.statusPercentages "__proto__" = none ∧
      (∀ e ∈ summary.statusCounts, e.2 = 0) ∧
      (∀ e ∈ summary.statusPercentages, e.2 = 0) ∧
      ∀ count, percentage count 0 = 0 := by
  have hnodup : ((statusCounts K (Store.values [])).map Prod.fst).Nodup := by
    unfold statusCounts
    exact foldl_objSet_keys_nodup
      (fun s => ((Store.values []).filter (fun a => decide (a.status = s))).length)
      K.AGENT_STATUS [] List.nodup_nil
  have hnoproto : "__proto__" ∉ (statusCounts K (Store.values [])).map Prod.fst := by
    unfold statusCounts
    exact foldl_objSet_no_proto
      (fun s => ((Store.values []).filter (fun a => decide (a.status = s))).length)
      K.AGENT_STATUS [] (by simp)
  have hcproto : jsGet (statusCounts K (Store.values [])) "__proto__" = none :=
    jsGet_eq_none _ _ hnoproto
  have hzero : ∀ count, percentage count 0 = 0 := by
    intro count
    simp [percentage]
  have hpget : ∀ s, jsGet (statusPercentages (statusCounts K (Store.values []))
      (Store.values []).length) s =
      match jsGet (statusCounts K (Store.values [])) s with
      | some n => some (percentage n (Store.values []).length)
      | none => none := by
    intro s
    unfold statusPercentages
    rw [jsGet_foldl_objSet_entries (fun n => percentage n (Store.values []).length) _
      hnodup hnoproto]
    cases jsGet (statusCounts K (Store.values [])) s <;> rfl
  have hczero : ∀ e ∈ statusCounts K (Store.values []), e.2 = 0 := by
    have hmem : ∀ (keys : List String) (init : List (String × Nat)),
        (∀ x ∈ init, x.2 = 0) →
        ∀ x ∈ keys.foldl (fun counts s =>
          objSet counts s ((Store.values []).filter (fun a => decide (a.status = s))).length)
          init, x.2 = 0 := by
      intro keys
      induction keys with
      | nil => intro init hinit x hx; exact hinit x hx
      | cons k ks ih =>
        intro init hinit x hx
        rw [List.foldl_cons] at hx
        refine ih _ ?_ x hx
        intro y hy
        rcases mem_objSet init k _ y hy with h1 | h1
        · exact hinit y h1
        · rw [h1]
          simp [Store.values]
    exact hmem K.AGENT_STATUS [] (fun x hx => absurd hx (List.not_mem_nil x))
  refine ⟨{ totalAgents := (Store.values []).length
            statusCounts := statusCounts K (Store.values [])
            statusPercentages :=
              statusPercentages (statusCounts K (Store.values [])) (Store.values []).length
            lastUpdated := now }, rfl, rfl, ?_, hcproto, ?_, hczero, ?_, hzero⟩
  · intro s hs hsp
    have hcount : jsGet (statusCounts K (Store.values [])) s = some 0 := by
      unfold statusCounts
      rw [jsGet_foldl_objSet
        (fun s => ((Store.values []).filter (fun a => decide (a.status = s))).length)]
      simp [hs, hsp, Store.values]
    refine ⟨hcount, ?_⟩
    show jsGet (statusPercentages (statusCounts K (Store.values [])) (Store.values []).length) s
      = some 0
    rw [hpget s, hcount]
    simp [Store.values, hzero]
  · show jsGet (statusPercentages (statusCounts K (Store.values [])) (Store.values []).length)
      "__proto__" = none
    rw [hpget "__proto__", hcproto]
  · intro e he
    have he2 : e ∈ statusPercentages (statusCounts K (Store.values []))
        (Store.values []).length := he
    unfold statusPercentages at he2
    rcases mem_foldl_objSet_entries (fun n => percentage n (Store.values []).length) _ [] e he2
      with h | ⟨x, _, hex⟩
    · exact absurd h (List.not_mem_nil e)
    · rw [hex]
      simp [Store.values, hzero]

/-- C11, as amended, on the sample registry: the summary of the empty store lists
the six statuses with the count 0 and the percentage 0. -/
theorem getStatusSummary_empty_witness :
    getStatusSummary sampleConstants [] 3 =
        { success := true, statusCode := 200,
          message := "Status summary retrieved successfully",
          data := Payload.summary
            { totalAgents := 0
              statusCounts := [("available", 0), ("busy", 0), ("away", 0), ("offline", 0),
                ("on_break", 0), ("in_meeting", 0)]
              statusPercentages := [("available", 0), ("busy", 0), ("away", 0),
                ("offline", 0), ("on_break", 0), ("in_meeting", 0)]
              lastUpdated := 3 } } ∧
      ∃ summary,
        getStatusSummary sampleConstants [] 3 =
          { success := true, statusCode := 200,
            message := "Status summary retrieved successfully",
            data := Payload.summary summary } ∧
        summary.totalAgents = 0 ∧
        ∀ s ∈ sampleConstants.AGENT_STATUS, s ≠ "__proto__" →
          jsGet summary.statusCounts s = some 0 ∧ jsGet summary.statusPercentages s = some 0 :=
  ⟨by decide,
    (getStatusSummary_empty sampleConstants 3).elim
      (fun summary h => ⟨summary, h.1, h.2.1, h.2.2.1⟩)⟩

/-! ## Deleting an agent -/

theorem not_mem_keys_jsDelete {α : Type} (m : List (String × α)) (key : String) :
    key ∉ (jsDelete m key).map Prod.fst := by
  intro h
  obtain ⟨e, he, hfst⟩ := List.mem_map.mp h
  have hp := (List.mem_filter.mp he).2
  simp [hfst] at hp

theorem jsDelete_cons_self {α : Type} (rest : List (String × α)) (key : String) (w : α) :
    jsDelete ((key, w) :: rest) key = jsDelete rest key := by
  simp [jsDelete, List.filter_cons]

theorem jsDelete_cons_other {α : Type} (rest : List (String × α)) (k key : String) (w : α)
    (h : k ≠ key) : jsDelete ((k, w) :: rest) key = (k, w) :: jsDelete rest key := by
  simp [jsDelete, List.filter_cons, h]

theorem jsGet_jsDelete_other {α : Type} (m : List (String × α)) (key other : String)
    (h : other ≠ key) : jsGet (jsDelete m key) other = jsGet m other := by
  induction m with
  | nil => rfl
  | cons x rest ih =>
    obtain ⟨k, w⟩ := x
    by_cases hk : k = key
    · subst hk
      have hko : ¬ k = other := fun e => h e.symm
      rw [jsDelete_cons_self, ih]
      simp [jsGet, hko]
    · rw [jsDelete_cons_other rest k key w hk]
      by_cases hko : k = other
      · simp [jsGet, hko]
      · simp [jsGet, hko, ih]

theorem jsDelete_of_not_mem {α : Type} (m : List (String × α)) (key : String)
    (h : key ∉ m.map Prod.fst) : jsDelete m key = m := by
  induction m with
  | nil => rfl
  | cons x rest ih =>
    obtain ⟨k, w⟩ := x
    simp only [List.map_cons, List.mem_cons, not_or] at h
    have hk : k ≠ key := fun e => h.1 e.symm
    rw [jsDelete_cons_other rest k key w hk, ih h.2]

/-- In a store without repeated keys, deleting the key of a stored entry takes out
that one entry and keeps the others where they were. -/
theorem jsDelete_split {α : Type} (m : List (String × α)) (key : String) (v : α)
    (hkeys : (m.map Prod.fst).Nodup) (hget : jsGet m key = some v) :
    ∃ before after, m = before ++ (key, v) :: after ∧ jsDelete m key = before ++ after := by
  induction m with
  | nil => simp [jsGet] at hget
  | cons x rest ih =>
    obtain ⟨k, w⟩ := x
    simp only [List.map_cons, List.nodup_cons] at hkeys
    by_cases hk : k = key
    · simp [jsGet, hk] at hget
      subst hk
      subst hget
      refine ⟨[], rest, rfl, ?_⟩
      rw [jsDelete_cons_self, jsDelete_of_not_mem rest k hkeys.1]
      rfl
    · simp [jsGet, hk] at hget
      obtain ⟨before, after, h1, h2⟩ := ih hkeys.2 hget
      refine ⟨(k, w) :: before, after, by rw [h1]; rfl, ?_⟩
      rw [jsDelete_cons_other rest k key w hk, h2]
      rfl

/-- C12: for an id that is not a key of the store, `deleteAgent` answers 404 with
the not-found message and returns the store it was given: same size, same
agents. -/
theorem deleteAgent_not_found (K : Constants) (agents : Store) (id : String)
    (hid : id ∉ agents.map Prod.fst) :
    deleteAgent K agents id =
        (agents,
          { success := false, statusCode := 404, message := K.API_MESSAGES.AGENT_NOT_FOUND,
            data := Payload.none }) ∧
      (deleteAgent K agents id).1.length = agents.length := by
  have heq : deleteAgent K agents id =
      (agents, sendError K.API_MESSAGES.AGENT_NOT_FOUND 404) := by
    simp [deleteAgent, jsGet_eq_none agents id hid]
  exact ⟨by rw [heq]; rfl, by rw [heq]⟩

/-- C12, on the sample store: deleting the unknown id `a9` is answered 404 and the
store still holds its one agent. -/
theorem deleteAgent_not_found_witness :
    "a9" ∉ sampleStore.map Prod.fst ∧
      (deleteAgent sampleConstants sampleStore "a9" =
          (sampleStore,
            { success := false, statusCode := 404,
              message := sampleConstants.API_MESSAGES.AGENT_NOT_FOUND,
              data := Payload.none }) ∧
        (deleteAgent sampleConstants sampleStore "a9").1.length = sampleStore.length) :=
  ⟨by decide, deleteAgent_not_found sampleConstants sampleStore "a9" (by decide)⟩

/-- C13: for an id that is a key of the store (a Map: no key twice),
`deleteAgent` succeeds and returns the store without that one entry: the id is no
longer a key, `getAgentById` answers 404 for it, the size is one less, and the
other entries are as they were and in the same order. -/
theorem deleteAgent_removes_entry (K : Constants) (agents : Store) (id : String)
    (hkeys : (agents.map Prod.fst).Nodup) (hid : id ∈ agents.map Prod.fst) :
    ∃ agent before after,
      agents = before ++ (id, agent) :: after ∧
      deleteAgent K agents id =
        (before ++ after,
          { success := true, statusCode := 200, message := K.API_MESSAGES.AGENT_DELETED,
            data := Payload.none }) ∧
      id ∉ (deleteAgent K agents id).1.map Prod.fst ∧
      getAgentById K (deleteAgent K agents id).1 id =
        { success := false, statusCode := 404, message := K.API_MESSAGES.AGENT_NOT_FOUND,
          data := Payload.none } ∧
      (deleteAgent K agents id).1.length + 1 = agents.length ∧
      List.Sublist (deleteAgent K agents id).1 agents ∧
      ∀ key, key ≠ id → jsGet (deleteAgent K agents id).1 key = jsGet agents key := by
  obtain ⟨agent, hget⟩ := jsGet_of_mem_keys agents id hid
  obtain ⟨before, after, hsplit, hdel⟩ := jsDelete_split agents id agent hkeys hget
  have heq : deleteAgent K agents id =
      (jsDelete agents id, sendSuccess K.API_MESSAGES.AGENT_DELETED Payload.none 200) := by
    simp [deleteAgent, hget]
  have hnot : id ∉ (jsDelete agents id).map Prod.fst := not_mem_keys_jsDelete agents id
  refine ⟨agent, before, after, hsplit, ?_, ?_, ?_, ?_, ?_, ?_⟩
  · rw [heq, hdel]
    rfl
  · rw [heq]
    exact hnot
  · rw [heq]
    simp [getAgentById, jsGet_eq_none _ id hnot, sendError]
  · rw [heq, hdel]
    simp only
    rw [hsplit]
    simp
    omega
  · rw [heq]
    exact List.filter_sublist agents
  · intro key hkey
    rw [heq]
    exact jsGet_jsDelete_other agents id key hkey

/-- C13, on the sample store of two agents: deleting `a1` leaves the store that
holds `a2` alone, and `a1` is then not found. -/
theorem deleteAgent_removes_entry_witness :
    ((sampleStore2.map Prod.fst).Nodup ∧ "a1" ∈ sampleStore2.map Prod.fst) ∧
      (deleteAgent sampleConstants sampleStore2 "a1").1 =
        [("a2", { sampleAgent "a2" "A002" "busy" with department := "Support" })] ∧
      ∃ agent before after,
        sampleStore2 = before ++ ("a1", agent) :: after ∧
        deleteAgent sampleConstants sampleStore2 "a1" =
          (before ++ after,
            { success := true, statusCode := 200,
              message := sampleConstants.API_MESSAGES.AGENT_DELETED,
              data := Payload.none }) ∧
        "a1" ∉ (deleteAgent sampleConstants sampleStore2 "a1").1.map Prod.fst ∧
        getAgentById sampleConstants (deleteAgent sampleConstants sampleStore2 "a1").1 "a1" =
          { success := false, statusCode := 404,
            message := sampleConstants.API_MESSAGES.AGENT_NOT_FOUND,
            data := Payload.none } ∧
        (deleteAgent sampleConstants sampleStore2 "a1").1.length + 1 = sampleStore2.length ∧
        List.Sublist (deleteAgent sampleConstants sampleStore2 "a1").1 sampleStore2 ∧
        ∀ key, key ≠ "a1" →
          jsGet (deleteAgent sampleConstants sampleStore2 "a1").1 key = jsGet sampleStore2 key :=
  ⟨⟨by decide, by decide⟩, by decide,
    deleteAgent_removes_entry sampleConstants sampleStore2 "a1" (by decide) (by decide)⟩

/-! ## Listing agents -/

/-- The statement of lines 25 and 26 is a filter: by the equality test when the
query value is truthy, by nothing otherwise. -/
theorem narrow_eq_filter (value : Option String) (field : Agent → String)
    (agentList : List Agent) :
    ∃ p : Agent → Bool, narrow value field agentList = agentList.filter p ∧
      ∀ a, p a = true ↔ ∀ v, value = some v → v ≠ "" → field a = v := by
  cases value with
  | none =>
    refine ⟨fun _ => true, by simp [narrow], ?_⟩
    intro a
    simp
  | some w =>
    by_cases hw : w = ""
    · refine ⟨fun _ => true, by simp [narrow, truthyString, hw], ?_⟩
      intro a
      simp [hw]
    · refine ⟨fun a => decide (field a = w), by simp [narrow, truthyString, hw], ?_⟩
      intro a
      simp [hw]

/-- C14, where it fails: the query `status=` gives the status filter the empty
string; no agent of the sample store has the empty status, and `getAllAgents`
returns both agents. -/
theorem getAllAgents_empty_filter_returns_all :
    (∀ a ∈ Store.values sampleStore2, a.status ≠ "") ∧
      getAllAgents sampleStore2 { status := some "", department := none } =
        { success := true, statusCode := 200, message := "Agents retrieved successfully",
          data := Payload.agents
            [sampleAgent "a1" "A001" "available",
              { sampleAgent "a2" "A002" "busy" with department := "Support" }] } := by
  refine ⟨by decide, by decide⟩

/-- C14, as amended: `getAllAgents` returns the agents of the store, in insertion
order and each as often as the store holds it, that pass the filter: the status
equals the query's status when that is present and not empty, and the department
equals the query's department when that is present and not empty; an empty
filter value narrows nothing, and with no filter it returns all agents. -/
theorem getAllAgents_filters (agents : Store) (query : ListQuery) :
    ∃ (result : List Agent) (p : Agent → Bool),
      getAllAgents agents query =
        { success := true, statusCode := 200, message := "Agents retrieved successfully",
          data := Payload.agents result } ∧
      result = (Store.values agents).filter p ∧
      (∀ a, p a = true ↔
        (∀ v, query.status = some v → v ≠ "" → a.status = v) ∧
          (∀ v, query.department = some v → v ≠ "" → a.department = v)) ∧
      List.Sublist result (Store.values agents) ∧
      (∀ a, a ∈ result ↔ a ∈ Store.values agents ∧
        (∀ v, query.status = some v → v ≠ "" → a.status = v) ∧
          (∀ v, query.department = some v → v ≠ "" → a.department = v)) ∧
      (∀ a, a ∈ result → result.count a = (Store.values agents).count a) ∧
      (query.status = none → query.department = none → result = Store.values agents) := by
  obtain ⟨p1, h1, hp1⟩ := narrow_eq_filter query.status Agent.status (Store.values agents)
  obtain ⟨p2, h2, hp2⟩ := narrow_eq_filter query.department Agent.department
    (narrow query.status Agent.status (Store.values agents))
  have hres : narrow query.department Agent.department
      (narrow query.status Agent.status (Store.values agents)) =
      (Store.values agents).filter (fun a => p1 a && p2 a) := by
    rw [h2, h1, List.filter_filter]
    congr 1
    funext a
    exact Bool.and_comm _ _
  have hp : ∀ a, (p1 a && p2 a) = true ↔
      (∀ v, query.status = some v → v ≠ "" → a.status = v) ∧
        (∀ v, query.department = some v → v ≠ "" → a.department = v) := by
    intro a
    rw [Bool.and_eq_true, hp1, hp2]
  refine ⟨_, fun a => p1 a && p2 a, rfl, hres, hp, ?_, ?_, ?_, ?_⟩
  · rw [hres]
    exact List.filter_sublist _
  · intro a
    rw [hres, List.mem_filter, hp]
  · intro a ha
    rw [hres] at ha ⊢
    exact List.count_filter (List.mem_filter.mp ha).2
  · intro hs hd
    rw [hres, List.filter_eq_self]
    intro a _
    rw [hp]
    constructor
    · intro v hv
      rw [hs] at hv
      exact absurd hv (by simp)
    · intro v hv
      rw [hd] at hv
      exact absurd hv (by simp)

/-- C14, as amended, on the sample store of two agents: the query `status=busy` returns agent
`a2` alone, the query `department=Sales` agent `a1` alone, and the empty query
both, in insertion order. -/
theorem getAllAgents_filters_witness :
    getAllAgents sampleStore2 { status := some "busy", department := none } =
        { success := true, statusCode := 200, message := "Agents retrieved successfully",
          data := Payload.agents
            [{ sampleAgent "a2" "A002" "busy" with department := "Support" }] } ∧
      getAllAgents sampleStore2 { status := none, department := some "Sales" } =
        { success := true, statusCode := 200, message := "Agents retrieved successfully",
          data := Payload.agents [sampleAgent "a1" "A001" "available"] } ∧
      ∃ result : List Agent,
        getAllAgents sampleStore2 { status := none, department := none } =
          { success := true, statusCode := 200, message := "Agents retrieved successfully",
            data := Payload.agents result } ∧
        result = Store.values sampleStore2 :=
  ⟨by decide, by decide,
    (getAllAgents_filters sampleStore2 { status := none, department := none }).elim
      (fun result h => h.elim (fun _ hp => ⟨result, hp.1, hp.2.2.2.2.2.2 rfl rfl⟩))⟩

/-! ## Unexpected faults -/

/-- The catch branch of a controller operation answers every error alike. -/
theorem catchBranch_generic (K : Constants) (e1 e2 : JsError) :
    catchBranch K e1 = catchBranch K e2 ∧
      catchBranch K e1 =
        { success := false, statusCode := 500, message := K.API_MESSAGES.INTERNAL_ERROR,
          data := Payload.none } :=
  ⟨rfl, rfl⟩

/-- The message `globalErrorHandler` sends is the error's own message whenever
that is not empty. -/
theorem globalErrorHandler_message (m : String) (hm : m ≠ "") :
    globalErrorHandler { message := some m } =
      { success := false, statusCode := 500, message := m, data := Payload.none } := by
  simp [globalErrorHandler, truthyString, hm]

/-- C15: `globalErrorHandler` passes the error's message on to the caller: two
errors with different messages get different responses, each carrying the message
of its error, here the address of a database host. -/
theorem globalErrorHandler_exposes_message :
    globalErrorHandler { message := some "connect ECONNREFUSED 10.0.0.5:5432" } =
        { success := false, statusCode := 500,
          message := "connect ECONNREFUSED 10.0.0.5:5432", data := Payload.none } ∧
      globalErrorHandler { message := some "Cannot read properties of undefined" } =
        { success := false, statusCode := 500,
          message := "Cannot read properties of undefined", data := Payload.none } ∧
      globalErrorHandler { message := some "connect ECONNREFUSED 10.0.0.5:5432" } ≠
        globalErrorHandler { message := some "Cannot read properties of undefined" } ∧
      globalErrorHandler { message := none } =
        { success := false, statusCode := 500, message := "Internal Server Error",
          data := Payload.none } := by
  refine ⟨by decide, by decide, by decide, by decide⟩

/-! ## Empty values in an update request -/

/-- C17, where it fails: an update body that carries the empty array as `skills`
replaces the skills of agent `a1`, which were `["voice"]`, by the empty array. -/
theorem updateAgent_empty_skills_replaces :
    jsGet sampleStore "a1" = some (sampleAgent "a1" "A001" "available") ∧
      (sampleAgent "a1" "A001" "available").skills = ["voice"] ∧
      updateAgent sampleConstants sampleStore "a1"
          { name := none, email := none, department := none, skills := some [] } 9 =
        ([("a1", { sampleAgent "a1" "A001" "available" with skills := [], updatedAt := 9 })],
          { success := true, statusCode := 200,
            message := sampleConstants.API_MESSAGES.AGENT_UPDATED,
            data := Payload.agent
              { sampleAgent "a1" "A001" "available" with skills := [], updatedAt := 9 } }) := by
  refine ⟨by decide, by decide, by decide⟩

/-- C17, as amended: for an existing agent, an update body whose `name`, `email`
or `department` is the empty string leaves that field as it was; a body that
carries a `skills` array, the empty one included, replaces the skills by it, and
only a body without `skills` leaves them. -/
theorem updateAgent_empty_values (K : Constants) (agents : Store) (id : String)
    (body : UpdateBody) (now : Nat) (agent : Agent) (hget : jsGet agents id = some agent) :
    ∃ after,
      jsGet (updateAgent K agents id body now).1 id = some after ∧
      (updateAgent K agents id body now).2.data = Payload.agent after ∧
      (body.name = some "" → after.name = agent.name) ∧
      (body.email = some "" → after.email = agent.email) ∧
      (body.department = some "" → after.department = agent.department) ∧
      (∀ v, body.skills = some v → after.skills = v) ∧
      (body.skills = some [] → after.skills = []) ∧
      (body.skills = none → after.skills = agent.skills) := by
  have heq : updateAgent K agents id body now =
      (jsSet agents id
          { agent with
            name := assignString body.name agent.name
            email := assignString body.email agent.email
            department := assignString body.department agent.department
            skills := assignArray body.skills agent.skills
            updatedAt := now },
        sendSuccess K.API_MESSAGES.AGENT_UPDATED
          (Payload.agent
            { agent with
              name := assignString body.name agent.name
              email := assignString body.email agent.email
              department := assignString body.department agent.department
              skills := assignArray body.skills agent.skills
              updatedAt := now }) 200) := by
    simp [updateAgent, hget]
  refine ⟨{ agent with
      name := assignString body.name agent.name
      email := assignString body.email agent.email
      department := assignString body.department agent.department
      skills := assignArray body.skills agent.skills
      updatedAt := now }, ?_, by rw [heq]; rfl, ?_, ?_, ?_, ?_, ?_, ?_⟩
  · rw [heq]
    exact jsGet_jsSet_self agents id _
  · intro h
    simp [h, assignString, truthyString]
  · intro h
    simp [h, assignString, truthyString]
  · intro h
    simp [h, assignString, truthyString]
  · intro v h
    simp [h, assignArray, truthyArray]
  · intro h
    simp [h, assignArray, truthyArray]
  · intro h
    simp [h, assignArray]

/-- C17, as amended, on the sample store: an empty `name` leaves the name of agent
`a1`, an empty `skills` array empties its skills. -/
theorem updateAgent_empty_values_witness :
    jsGet sampleStore "a1" = some (sampleAgent "a1" "A001" "available") ∧
      ∃ after,
        jsGet (updateAgent sampleConstants sampleStore "a1"
          { name := some "", email := none, department := none, skills := some [] } 9).1 "a1"
          = some after ∧
        after.name = (sampleAgent "a1" "A001" "available").name ∧
        after.skills = [] :=
  ⟨by decide,
    (updateAgent_empty_values sampleConstants sampleStore "a1"
      { name := some "", email := none, department := none, skills := some [] } 9
      (sampleAgent "a1" "A001" "available") (by decide)).elim
      (fun after h => ⟨after, h.1, h.2.2.1 rfl, h.2.2.2.2.2.2.1 rfl⟩)⟩

/-! ## The summary adds up -/

/-- The percentage of line 146 never exceeds 100 when the count does not exceed
the total. -/
theorem percentage_le_hundred (c t : Nat) (hct : c ≤ t) : percentage c t ≤ 100 := by
  rcases Nat.eq_zero_or_pos c with hc | hc
  · subst hc
    rw [percentage_zero]
    omega
  · have ht : 0 < t := by omega
    obtain ⟨a, ha, hdiv, hn1, hn2⟩ := Double.div_spec c t hc hct
    obtain ⟨r1, r1'⟩ := roundHalfEven_spec (c * 2 ^ a) t ht
    have hm1 : 2 ^ 52 ≤ roundHalfEven (c * 2 ^ a) t := by
      by_contra hcon
      push_neg at hcon
      have : (roundHalfEven (c * 2 ^ a) t + 1) * t ≤ 2 ^ 52 * t := Nat.mul_le_mul_right _ hcon
      nlinarith
    have hm2 : roundHalfEven (c * 2 ^ a) t ≤ 2 ^ 53 := by
      by_contra hcon
      push_neg at hcon
      have : (2 ^ 53 + 1) * t ≤ roundHalfEven (c * 2 ^ a) t * t := Nat.mul_le_mul_right _ hcon
      nlinarith
    obtain ⟨b, hb, hmul⟩ := Double.mul_spec (roundHalfEven (c * 2 ^ a) t) (-(a : Int)) hm1 hm2
    obtain ⟨r2, r2'⟩ := roundHalfEven_spec (roundHalfEven (c * 2 ^ a) t * 100) (2 ^ b)
      (Nat.two_pow_pos b)
    obtain ⟨k, hk⟩ : ∃ k, a = k + b := ⟨a - b, by omega⟩
    have hexp : (b : Int) + -(a : Int) = -(k : Int) := by omega
    have hp : percentage c t = mathRound
        { mant := roundHalfEven (roundHalfEven (c * 2 ^ a) t * 100) (2 ^ b),
          exp := -(k : Int) } := by
      unfold percentage
      simp only [gt_iff_lt, ht, if_true]
      rw [hdiv, hmul, hexp]
    obtain ⟨r3, r3'⟩ := mathRound_spec
      (roundHalfEven (roundHalfEven (c * 2 ^ a) t * 100) (2 ^ b)) k
    rw [← hp] at r3 r3'
    have hA : 2 ^ a = 2 ^ k * 2 ^ b := by rw [hk, pow_add]
    have hBpos : 0 < 2 ^ b := Nat.two_pow_pos b
    have hRpos : 0 < 2 ^ k := Nat.two_pow_pos k
    generalize roundHalfEven (roundHalfEven (c * 2 ^ a) t * 100) (2 ^ b) = m2 at r2 r2' r3 r3' hp
    generalize roundHalfEven (c * 2 ^ a) t = m1 at r1 r1' r2 r2' hm1 hm2
    generalize percentage c t = q at r3 r3' hp ⊢
    rw [hA] at r1 r1'
    generalize 2 ^ b = B at r1 r1' r2 r2' hBpos
    generalize 2 ^ k = R at r1 r1' r3 r3' hRpos
    -- the mantissa of the quotient does not exceed `R * B`, the double 1
    have g1 : m1 ≤ R * B := by
      by_contra hcon
      push_neg at hcon
      have e1 : (R * B + 1) * t ≤ m1 * t := Nat.mul_le_mul_right _ hcon
      have e2 : c * (R * B) ≤ t * (R * B) := Nat.mul_le_mul_right _ hct
      nlinarith
    -- the mantissa of the product does not exceed `100 * R`, the double 100
    have g2 : m2 ≤ 100 * R := by
      by_contra hcon
      push_neg at hcon
      have e1 : (100 * R + 1) * B ≤ m2 * B := Nat.mul_le_mul_right _ hcon
      nlinarith
    by_contra hcon
    push_neg at hcon
    have e3 : 2 * R * 101 ≤ 2 * R * q := Nat.mul_le_mul_left _ hcon
    linarith

/-- Over a registry without repetition that holds every agent's status, the counts
per status add up to the number of agents. -/
theorem sum_status_counts (registry : List String) (agentList : List Agent)
    (hnodup : registry.Nodup) (hreg : ∀ a ∈ agentList, a.status ∈ registry) :
    (registry.map
      (fun s => (agentList.filter (fun a => decide (a.status = s))).length)).sum =
      agentList.length := by
  induction agentList with
  | nil => simp
  | cons a rest ih =>
    have hrest : ∀ x ∈ rest, x.status ∈ registry := fun x hx => hreg x (List.mem_cons_of_mem _ hx)
    have hstep : ∀ s, ((a :: rest).filter (fun a => decide (a.status = s))).length =
        (rest.filter (fun a => decide (a.status = s))).length
          + (if a.status = s then 1 else 0) := by
      intro s
      by_cases hs : a.status = s
      · simp [List.filter_cons, hs]
      · simp [List.filter_cons, hs]
    have hone : ∀ (l : List String), l.Nodup → a.status ∈ l →
        (l.map (fun s => if a.status = s then 1 else 0)).sum = 1 := by
      intro l
      induction l with
      | nil => intro _ h; simp at h
      | cons s l ihl =>
        intro hn hmem
        simp only [List.nodup_cons] at hn
        by_cases hs : a.status = s
        · have hzero : (l.map (fun s => if a.status = s then 1 else 0)).sum = 0 := by
            apply List.sum_eq_zero
            intro x hx
            obtain ⟨s2, hs2, rfl⟩ := List.mem_map.mp hx
            have : ¬ a.status = s2 := fun e => hn.1 (hs ▸ e ▸ hs2)
            simp [this]
          simp [hs, hzero]
          simpa [hs] using hzero
        · have hmem2 : a.status ∈ l := by
            rcases List.mem_cons.mp hmem with h | h
            · exact absurd h hs
            · exact h
          simp [hs, ihl hn.2 hmem2]
    simp only [hstep]
    rw [List.sum_map_add, ih hrest, hone registry hnodup (hreg a (List.mem_cons_self _ _))]
    simp

/-- Every percentage `getStatusSummary` computes lies between 0 and 100, whatever
the registry and the statuses of the agents. -/
theorem getStatusSummary_percentages_bounded (K : Constants) (agents : Store) :
    ∀ e ∈ statusPercentages (statusCounts K (Store.values agents))
      (Store.values agents).length, 0 ≤ e.2 ∧ e.2 ≤ 100 := by
  have hcle : ∀ x ∈ statusCounts K (Store.values agents), x.2 ≤ (Store.values agents).length := by
    have hmem : ∀ (keys : List String) (init : List (String × Nat)),
        (∀ x ∈ init, x.2 ≤ (Store.values agents).length) →
        ∀ x ∈ keys.foldl (fun counts s =>
          objSet counts s ((Store.values agents).filter (fun a => decide (a.status = s))).length)
          init, x.2 ≤ (Store.values agents).length := by
      intro keys
      induction keys with
      | nil => intro init hinit x hx; exact hinit x hx
      | cons k ks ih =>
        intro init hinit x hx
        rw [List.foldl_cons] at hx
        refine ih _ ?_ x hx
        intro y hy
        rcases mem_objSet init k _ y hy with h1 | h1
        · exact hinit y h1
        · rw [h1]
          exact List.length_filter_le _ _
    exact hmem K.AGENT_STATUS [] (fun x hx => absurd hx (List.not_mem_nil x))
  intro e he
  refine ⟨Nat.zero_le _, ?_⟩
  unfold statusPercentages at he
  rcases mem_foldl_objSet_entries (fun n => percentage n (Store.values agents).length) _ [] e he
    with h | ⟨x, hx, hex⟩
  · exact absurd h (List.not_mem_nil e)
  · rw [hex]
    exact percentage_le_hundred _ _ (hcle x hx)

/-- C18, where it fails: with the registry `["__proto__", "available"]`, without
repetition, and two agents whose statuses `__proto__` and `available` are both in
it, the summary counts only the `available` agent: the counts add up to 1 and
`totalAgents` is 2. -/
theorem getStatusSummary_proto_not_counted :
    protoConstants.AGENT_STATUS.Nodup ∧
      (∀ a ∈ Store.values protoStore, a.status ∈ protoConstants.AGENT_STATUS) ∧
      getStatusSummary protoConstants protoStore 0 =
        { success := true, statusCode := 200,
          message := "Status summary retrieved successfully",
          data := Payload.summary
            { totalAgents := 2
              statusCounts := [("available", 1)]
              statusPercentages := [("available", 50)]
              lastUpdated := 0 } } ∧
      (([("available", 1)] : List (String × Nat)).map Prod.snd).sum ≠ 2 := by
  refine ⟨by decide, by decide, by decide, by decide⟩

/-- C18, as amended: when every agent's status is in the Status Registry and the
registry has no value twice and not the value `__proto__`, the counts
`getStatusSummary` returns add up to `totalAgents`, the number of agents; every
percentage it returns lies between 0 and 100, for every registry. -/
theorem getStatusSummary_adds_up (K : Constants) (agents : Store) (now : Nat)
    (hnodup : K.AGENT_STATUS.Nodup) (hproto : "__proto__" ∉ K.AGENT_STATUS)
    (hreg : ∀ a ∈ Store.values agents, a.status ∈ K.AGENT_STATUS) :
    ∃ summary,
      getStatusSummary K agents now =
        { success := true, statusCode := 200,
          message := "Status summary retrieved successfully",
          data := Payload.summary summary } ∧
      summary.totalAgents = agents.length ∧
      (summary.statusCounts.map Prod.snd).sum = summary.totalAgents ∧
      ∀ e ∈ summary.statusPercentages, 0 ≤ e.2 ∧ e.2 ≤ 100 := by
  have hvals : (Store.values agents).length = agents.length := by simp [Store.values]
  have hperm : List.Perm (statusCounts K (Store.values agents))
      (K.AGENT_STATUS.map (fun s =>
        (s, ((Store.values agents).filter (fun a => decide (a.status = s))).length))) := by
    unfold statusCounts
    have h := foldl_objSet_perm
      (fun s => ((Store.values agents).filter (fun a => decide (a.status = s))).length)
      K.AGENT_STATUS [] hnodup hproto (fun k _ => by simp)
    simpa using h
  refine ⟨{ totalAgents := (Store.values agents).length
            statusCounts := statusCounts K (Store.values agents)
            statusPercentages :=
              statusPercentages (statusCounts K (Store.values agents))
                (Store.values agents).length
            lastUpdated := now }, rfl, hvals, ?_, ?_⟩
  · show ((statusCounts K (Store.values agents)).map Prod.snd).sum
      = (Store.values agents).length
    rw [(hperm.map Prod.snd).sum_eq, List.map_map]
    exact sum_status_counts K.AGENT_STATUS (Store.values agents) hnodup hreg
  · exact getStatusSummary_percentages_bounded K agents

/-- C18, as amended, on the store of forty agents: the counts 17 and 23 add up to
40 and the percentages 43 and 57 lie between 0 and 100. -/
theorem getStatusSummary_adds_up_witness :
    (sampleConstants.AGENT_STATUS.Nodup ∧ "__proto__" ∉ sampleConstants.AGENT_STATUS ∧
        ∀ a ∈ Store.values sampleStore40, a.status ∈ sampleConstants.AGENT_STATUS) ∧
      ∃ summary,
        getStatusSummary sampleConstants sampleStore40 0 =
          { success := true, statusCode := 200,
            message := "Status summary retrieved successfully",
            data := Payload.summary summary } ∧
        summary.totalAgents = sampleStore40.length ∧
        (summary.statusCounts.map Prod.snd).sum = summary.totalAgents ∧
        ∀ e ∈ summary.statusPercentages, 0 ≤ e.2 ∧ e.2 ≤ 100 :=
  ⟨⟨by decide, by decide, by decide⟩,
    getStatusSummary_adds_up sampleConstants sampleStore40 0 (by decide) (by decide)
      (by decide)⟩

/-! ## Statuses with and without an entry in the Transition Table -/

theorem jsGet_specTransitionTable (registry : List String) (reachable : String → List String)
    (s : String) (hs : s ∈ registry) :
    jsGet (specTransitionTable registry reachable) s = some (reachable s) := by
  induction registry with
  | nil => simp at hs
  | cons r rest ih =>
    by_cases hr : r = s
    · simp [specTransitionTable, jsGet, hr]
    · have hmem : s ∈ rest := by
        rcases List.mem_cons.mp hs with h | h
        · exact absurd h.symm hr
        · exact h
      have ih2 := ih hmem
      unfold specTransitionTable at ih2
      simp [specTransitionTable, jsGet, hr, ih2]

/-- C16: with the Transition Table the specification describes, an object with an
entry for every status of the Status Registry, the read of line 99 yields that
entry for every registry status; so for an agent whose status is in the registry
a request for a registry status either succeeds or is answered with the
illegal-transition error that lists exactly the entry: the default `[]` and the
catch branch are not reached. -/
theorem specTransitionTable_total (K : Constants) (reachable : String → List String)
    (htable : K.VALID_STATUS_TRANSITIONS =
      objectLiteralRead (specTransitionTable K.AGENT_STATUS reachable)) :
    (∀ s ∈ K.AGENT_STATUS, K.VALID_STATUS_TRANSITIONS s = TableRead.entry (reachable s)) ∧
      ∀ (agents : Store) (id s : String) (reason : Option String) (now : Nat) (agent : Agent),
        jsGet agents id = some agent → agent.status ∈ K.AGENT_STATUS → s ∈ K.AGENT_STATUS →
        (s ∈ reachable agent.status ∧
          (updateAgentStatus K agents id (some s) reason now).2.success = true) ∨
        (s ∉ reachable agent.status ∧
          updateAgentStatus K agents id (some s) reason now =
            (agents,
              { success := false, statusCode := 400,
                message := "Cannot change from " ++ agent.status ++ " to " ++ s ++
                  ". Valid: " ++ String.intercalate ", " (reachable agent.status),
                data := Payload.none })) := by
  have hread : ∀ s ∈ K.AGENT_STATUS,
      K.VALID_STATUS_TRANSITIONS s = TableRead.entry (reachable s) := by
    intro s hs
    rw [htable]
    simp [objectLiteralRead, jsGet_specTransitionTable K.AGENT_STATUS reachable s hs]
  refine ⟨hread, ?_⟩
  intro agents id s reason now agent hget hcur hreg
  by_cases hmem : s ∈ reachable agent.status
  · left
    refine ⟨hmem, ?_⟩
    rw [updateAgentStatus_legal K agents id s reason now agent (reachable agent.status)
      hget hreg (hread agent.status hcur) hmem]
    rfl
  · right
    refine ⟨hmem, ?_⟩
    rw [updateAgentStatus_illegal K agents id s reason now agent (reachable agent.status)
      hget hreg (hread agent.status hcur) hmem]
    rfl

/-- C16, on the sample table that has an entry for each of the six sample
statuses: the read for `busy` yields its (empty) entry. -/
theorem specTransitionTable_total_witness :
    sampleSpecConstants.VALID_STATUS_TRANSITIONS =
        objectLiteralRead (specTransitionTable sampleSpecConstants.AGENT_STATUS
          (fun s => if s = "available" then ["busy", "offline", "away"] else [])) ∧
      sampleSpecConstants.VALID_STATUS_TRANSITIONS "busy" = TableRead.entry [] ∧
      sampleSpecConstants.VALID_STATUS_TRANSITIONS "available" =
        TableRead.entry ["busy", "offline", "away"] :=
  ⟨rfl,
    (specTransitionTable_total sampleSpecConstants
      (fun s => if s = "available" then ["busy", "offline", "away"] else []) rfl).1
      "busy" (by decide),
    (specTransitionTable_total sampleSpecConstants
      (fun s => if s = "available" then ["busy", "offline", "away"] else []) rfl).1
      "available" (by decide)⟩

/-- C19: for an existing agent whose current status has no entry in the Transition
Table, the read of line 99 yielding `undefined`, every request for a status of
the Status Registry is answered 400 with the illegal-transition message that
lists no status, and the store, the agent in it included, is left as it was: the
missing entry counts as the empty array. -/
theorem updateAgentStatus_no_entry (K : Constants) (agents : Store) (id s : String)
    (reason : Option String) (now : Nat) (agent : Agent)
    (hget : jsGet agents id = some agent) (hreg : s ∈ K.AGENT_STATUS)
    (hread : K.VALID_STATUS_TRANSITIONS agent.status = TableRead.absent) :
    updateAgentStatus K agents id (some s) reason now =
        (agents,
          { success := false, statusCode := 400,
            message := "Cannot change from " ++ agent.status ++ " to " ++ s ++ ". Valid: ",
            data := Payload.none }) ∧
      jsGet (updateAgentStatus K agents id (some s) reason now).1 id = some agent := by
  have heq : updateAgentStatus K agents id (some s) reason now =
      (agents, sendError (illegalTransitionMessage agent.status s []) 400) :=
    updateAgentStatus_absent K agents id s reason now agent hget hreg hread
  have hjoin : String.intercalate ", " [] = "" := rfl
  refine ⟨?_, ?_⟩
  · rw [heq]
    simp [sendError, illegalTransitionMessage, joinComma, hjoin]
  · rw [heq]
    exact hget

/-- C19, on the sample store of two agents: the sample table has no entry for
`busy`, the status of agent `a2`, and its request for `available` is answered with
the illegal-transition error that lists nothing. -/
theorem updateAgentStatus_no_entry_witness :
    (jsGet sampleStore2 "a2" =
        some { sampleAgent "a2" "A002" "busy" with department := "Support" } ∧
      "available" ∈ sampleConstants.AGENT_STATUS ∧
      sampleConstants.VALID_STATUS_TRANSITIONS "busy" = TableRead.absent) ∧
      updateAgentStatus sampleConstants sampleStore2 "a2" (some "available") none 5 =
        (sampleStore2,
          { success := false, statusCode := 400,
            message := "Cannot change from busy to available. Valid: ",
            data := Payload.none }) :=
  ⟨⟨by decide, by decide, by decide⟩,
    (updateAgentStatus_no_entry sampleConstants sampleStore2 "a2" "available" none 5
      { sampleAgent "a2" "A002" "busy" with department := "Support" }
      (by decide) (by decide) (by decide)).1⟩

end AgentWallboard
